/-
  Verification of the batch-orchestration core of ai-sprite-image-generator.

  Each section shallowly embeds one component of the TypeScript source:
  * `Slug`   — `kebabCase` from src/utils.ts
  * `Gen`    — cell normalization, batching and result aggregation from src/lib.ts
  * `Kie`    — `createTask` / `pollTaskStatus` from src/kie-ai-client.ts
  * `Sheet`  — `splitSpriteSheet` from src/lib.ts
  * `Prompt` — `buildSpritePrompt` from src/lib.ts
  * `RLim`   — `RateLimiter` / `executeWithRateLimit` from src/rate-limiter.ts
  * `Proc`   — `processBatch` from src/lib.ts

  Machine integers are modelled as `Nat`; time is discrete (milliseconds as
  `Nat`); network and filesystem effects are modelled as explicit oracle
  values (scripts of responses); divergence of a source loop is modelled as
  `Option.none`.
-/
import Mathlib

namespace Slug

/-- The 26 ASCII uppercase letters, i.e. the regex class `[A-Z]`. -/
def upperChars : List Char :=
  ['A', 'B', 'C', 'D', 'E', 'F', 'G', 'H', 'I', 'J', 'K', 'L', 'M',
   'N', 'O', 'P', 'Q', 'R', 'S', 'T', 'U', 'V', 'W', 'X', 'Y', 'Z']

/-- The 26 ASCII lowercase letters, i.e. the regex class `[a-z]`. -/
def lowerChars : List Char :=
  ['a', 'b', 'c', 'd', 'e', 'f', 'g', 'h', 'i', 'j', 'k', 'l', 'm',
   'n', 'o', 'p', 'q', 'r', 's', 't', 'u', 'v', 'w', 'x', 'y', 'z']

/-- The 10 ASCII digits, i.e. the regex class `[0-9]`. -/
def digitChars : List Char :=
  ['0', '1', '2', '3', '4', '5', '6', '7', '8', '9']

def isUpperAZ (c : Char) : Bool := decide (c ∈ upperChars)

def isLowerAZ (c : Char) : Bool := decide (c ∈ lowerChars)

def isDigit09 (c : Char) : Bool := decide (c ∈ digitChars)

/-- The regex class `\w` = `[A-Za-z0-9_]` (non-unicode JS regex). -/
def isWordChar (c : Char) : Bool := isUpperAZ c || isLowerAZ c || isDigit09 c || c = '_'

/-- `.replace(/\W/g, ' ')` — replace non-word characters with space. -/
def toSpaces (cs : List Char) : List Char := cs.map (fun c => if isWordChar c then c else ' ')

/-- `.replace(/([a-z])([A-Z])/g, '$1 $2')` — insert a space inside camelCase. -/
def camelSplit : List Char → List Char
  | [] => []
  | [c] => [c]
  | a :: b :: rest =>
    if isLowerAZ a && isUpperAZ b then a :: ' ' :: camelSplit (b :: rest)
    else a :: camelSplit (b :: rest)

/-- `.trim()`.  At this point of the pipeline every character is either a
word character or `' '` (all other whitespace was already replaced by
`toSpaces`), so trimming removes exactly the boundary spaces. -/
def trimSpaces (cs : List Char) : List Char :=
  ((cs.dropWhile (fun c => c = ' ')).reverse.dropWhile (fun c => c = ' ')).reverse

/-- The regex class `[\s_-]`, restricted to the characters that can occur at
this point of the pipeline (the only whitespace left is `' '`). -/
def isSepChar (c : Char) : Bool := c = ' ' || c = '_' || c = '-'

/-- `.replace(/[\s_-]+/g, '-')` — each maximal run of separators becomes one
hyphen.  The boolean records whether the previous character was in a run. -/
def collapseGo : Bool → List Char → List Char
  | _, [] => []
  | prevSep, c :: rest =>
    if isSepChar c then
      if prevSep then collapseGo true rest else '-' :: collapseGo true rest
    else c :: collapseGo false rest

/-- `.toLowerCase()` restricted to ASCII letters (the only letters that can
reach this step, every other character having been replaced earlier). -/
def toLowerChar (c : Char) : Char :=
  match (upperChars.zip lowerChars).find? (fun p => decide (p.1 = c)) with
  | some p => p.2
  | none => c

/-- `kebabCase` from src/utils.ts:
`str.replace(/\W/g,' ').replace(/([a-z])([A-Z])/g,'$1 $2').trim().replace(/[\s_-]+/g,'-').toLowerCase()` -/
def kebabCase (s : String) : String :=
  String.mk ((collapseGo false (trimSpaces (camelSplit (toSpaces s.data)))).map toLowerChar)

example : kebabCase "Hello World" = "hello-world" := by decide
example : kebabCase "helloWorld" = "hello-world" := by decide
example : kebabCase "Hello, World!" = "hello-world" := by decide
example : kebabCase "Hello   World" = "hello-world" := by decide
example : kebabCase "hello_world" = "hello-world" := by decide
example : kebabCase "_a" = "-a" := by decide
example : kebabCase "-a" = "a" := by decide

end Slug

namespace Slug

/-- Characters that survive the whole pipeline unchanged: word characters
that are not separators, not uppercase, and fixed by lowercasing. -/
def slugChar (c : Char) : Bool :=
  isWordChar c && !isSepChar c && !isUpperAZ c && decide (toLowerChar c = c)

theorem slug_of_upper {c : Char} (h : c ∈ upperChars) : slugChar (toLowerChar c) = true := by
  simp only [upperChars] at h
  fin_cases h <;> decide

theorem slug_of_lower {c : Char} (h : c ∈ lowerChars) :
    toLowerChar c = c ∧ slugChar c = true := by
  simp only [lowerChars] at h
  fin_cases h <;> exact ⟨by decide, by decide⟩

theorem slug_of_digit {c : Char} (h : c ∈ digitChars) :
    toLowerChar c = c ∧ slugChar c = true := by
  simp only [digitChars] at h
  fin_cases h <;> exact ⟨by decide, by decide⟩

theorem slug_word {c : Char} (h : slugChar c = true) : isWordChar c = true := by
  simp only [slugChar, Bool.and_eq_true] at h; exact h.1.1.1

theorem slug_nonsep {c : Char} (h : slugChar c = true) : isSepChar c = false := by
  simp only [slugChar, Bool.and_eq_true, Bool.not_eq_true'] at h; exact h.1.1.2

theorem slug_nonupper {c : Char} (h : slugChar c = true) : isUpperAZ c = false := by
  simp only [slugChar, Bool.and_eq_true, Bool.not_eq_true'] at h; exact h.1.2

theorem slug_tolower {c : Char} (h : slugChar c = true) : toLowerChar c = c := by
  simp only [slugChar, Bool.and_eq_true, decide_eq_true_eq] at h; exact h.2

theorem slug_ne_dash {c : Char} (h : slugChar c = true) : c ≠ '-' := by
  intro hc; subst hc; exact absurd h (by decide)

theorem slug_ne_space {c : Char} (h : slugChar c = true) : c ≠ ' ' := by
  intro hc; subst hc; exact absurd h (by decide)

theorem slug_ne_underscore {c : Char} (h : slugChar c = true) : c ≠ '_' := by
  intro hc; subst hc; exact absurd h (by decide)

/-- A word character that is not a separator becomes a slug character (and in
particular not a hyphen) after lowercasing. -/
theorem toLower_slug {c : Char} (hw : isWordChar c = true) (hs : isSepChar c = false) :
    slugChar (toLowerChar c) = true := by
  simp only [isWordChar, Bool.or_eq_true] at hw
  rcases hw with ((hu | hl) | hd) | hund
  · exact slug_of_upper (by simpa [isUpperAZ] using hu)
  · have := slug_of_lower (c := c) (by simpa [isLowerAZ] using hl)
    rw [this.1]; exact this.2
  · have := slug_of_digit (c := c) (by simpa [isDigit09] using hd)
    rw [this.1]; exact this.2
  · exact absurd hs (by simp [isSepChar, of_decide_eq_true hund])

theorem toLower_ne_dash {c : Char} (hw : isWordChar c = true) (hs : isSepChar c = false) :
    toLowerChar c ≠ '-' :=
  slug_ne_dash (toLower_slug hw hs)

theorem mem_toSpaces {c : Char} {l : List Char} (h : c ∈ toSpaces l) :
    isWordChar c = true ∨ c = ' ' := by
  simp only [toSpaces, List.mem_map] at h
  obtain ⟨a, _, ha⟩ := h
  by_cases hw : isWordChar a = true
  · left; rw [← ha, if_pos hw]; exact hw
  · right; rw [← ha, if_neg hw]

theorem mem_camelSplit : ∀ {l : List Char} {c : Char}, c ∈ camelSplit l → c ∈ l ∨ c = ' '
  | [], c, h => by simp [camelSplit] at h
  | [a], c, h => by simp [camelSplit] at h; simp [h]
  | a :: b :: rest, c, h => by
    simp only [camelSplit] at h
    split at h
    · simp only [List.mem_cons] at h
      rcases h with rfl | rfl | h
      · exact Or.inl (by simp)
      · exact Or.inr rfl
      · rcases mem_camelSplit h with h | h
        · exact Or.inl (List.mem_cons_of_mem a h)
        · exact Or.inr h
    · simp only [List.mem_cons] at h
      rcases h with rfl | h
      · exact Or.inl (by simp)
      · rcases mem_camelSplit h with h | h
        · exact Or.inl (List.mem_cons_of_mem a h)
        · exact Or.inr h

theorem mem_trimSpaces {c : Char} {l : List Char} (h : c ∈ trimSpaces l) : c ∈ l := by
  simp only [trimSpaces] at h
  rw [List.mem_reverse] at h
  have h2 := (List.dropWhile_sublist _).mem h
  rw [List.mem_reverse] at h2
  exact (List.dropWhile_sublist _).mem h2

theorem mem_collapseGo :
    ∀ {b : Bool} {l : List Char} {c : Char}, c ∈ collapseGo b l →
      c = '-' ∨ (c ∈ l ∧ isSepChar c = false)
  | _, [], c, h => by simp [collapseGo] at h
  | b, a :: rest, c, h => by
    simp only [collapseGo] at h
    by_cases hs : isSepChar a = true
    · rw [if_pos hs] at h
      rcases b with _ | _
      · simp only [Bool.false_eq_true, if_false, List.mem_cons] at h
        rcases h with rfl | h
        · exact Or.inl rfl
        · rcases mem_collapseGo h with h | ⟨h1, h2⟩
          · exact Or.inl h
          · exact Or.inr ⟨List.mem_cons_of_mem a h1, h2⟩
      · simp only [if_true] at h
        rcases mem_collapseGo h with h | ⟨h1, h2⟩
        · exact Or.inl h
        · exact Or.inr ⟨List.mem_cons_of_mem a h1, h2⟩
    · rw [if_neg hs] at h
      simp only [List.mem_cons] at h
      rcases h with rfl | h
      · exact Or.inr ⟨by simp, by simpa using hs⟩
      · rcases mem_collapseGo h with h | ⟨h1, h2⟩
        · exact Or.inl h
        · exact Or.inr ⟨List.mem_cons_of_mem a h1, h2⟩

/-- Every character of a `kebabCase` output is a hyphen or a slug character. -/
theorem kebab_chars {s : String} {c : Char} (h : c ∈ (kebabCase s).data) :
    c = '-' ∨ slugChar c = true := by
  simp only [kebabCase, List.mem_map] at h
  obtain ⟨d, hd, hc⟩ := h
  rcases mem_collapseGo hd with rfl | ⟨hmem, hsep⟩
  · exact Or.inl (by rw [← hc]; decide)
  · have hword : isWordChar d = true := by
      rcases mem_camelSplit (mem_trimSpaces hmem) with h | rfl
      · rcases mem_toSpaces h with h | rfl
        · exact h
        · exact absurd hsep (by decide)
      · exact absurd hsep (by decide)
    exact Or.inr (by rw [← hc]; exact toLower_slug hword hsep)

end Slug

namespace Slug

theorem collapse_head_true :
    ∀ {l : List Char}, (∀ c ∈ l, isWordChar c = true ∨ c = ' ') →
      ∀ {x : Char}, ((collapseGo true l).map toLowerChar).head? = some x → x ≠ '-'
  | [], _, x, h => by simp [collapseGo] at h
  | a :: rest, hc, x, h => by
    by_cases hs : isSepChar a = true
    · rw [show collapseGo true (a :: rest) = collapseGo true rest from by
        simp [collapseGo, hs]] at h
      exact collapse_head_true (fun c hm => hc c (List.mem_cons_of_mem a hm)) h
    · rw [show collapseGo true (a :: rest) = a :: collapseGo false rest from by
        simp [collapseGo, hs]] at h
      simp only [List.map_cons, List.head?_cons, Option.some.injEq] at h
      have hword : isWordChar a = true := by
        rcases hc a (by simp) with hw | rfl
        · exact hw
        · exact absurd hs (by decide)
      rw [← h]
      exact toLower_ne_dash hword (by simpa using hs)

theorem collapse_chain :
    ∀ {l : List Char} (b : Bool), (∀ c ∈ l, isWordChar c = true ∨ c = ' ') →
      List.Chain' (fun x y => ¬(x = '-' ∧ y = '-')) ((collapseGo b l).map toLowerChar)
  | [], b, _ => by simp [collapseGo]
  | a :: rest, b, hc => by
    have hrest : ∀ c ∈ rest, isWordChar c = true ∨ c = ' ' :=
      fun c hm => hc c (List.mem_cons_of_mem a hm)
    by_cases hs : isSepChar a = true
    · cases b
      · rw [show collapseGo false (a :: rest) = '-' :: collapseGo true rest from by
          simp [collapseGo, hs]]
        rw [List.map_cons, List.chain'_cons']
        refine ⟨fun y hy => ?_, collapse_chain true hrest⟩
        have : y ≠ '-' := collapse_head_true hrest hy
        tauto
      · rw [show collapseGo true (a :: rest) = collapseGo true rest from by
          simp [collapseGo, hs]]
        exact collapse_chain true hrest
    · rw [show collapseGo b (a :: rest) = a :: collapseGo false rest from by
        cases b <;> simp [collapseGo, hs]]
      rw [List.map_cons, List.chain'_cons']
      refine ⟨fun y hy => ?_, collapse_chain false hrest⟩
      have hword : isWordChar a = true := by
        rcases hc a (by simp) with hw | rfl
        · exact hw
        · exact absurd hs (by decide)
      have : toLowerChar a ≠ '-' := toLower_ne_dash hword (by simpa using hs)
      tauto

/-- Characters reaching the separator-collapsing step are word chars or spaces. -/
theorem trimmed_chars {s : String} {c : Char}
    (h : c ∈ trimSpaces (camelSplit (toSpaces s.data))) : isWordChar c = true ∨ c = ' ' := by
  rcases mem_camelSplit (mem_trimSpaces h) with h2 | rfl
  · exact mem_toSpaces h2
  · exact Or.inr rfl

/-- No two adjacent hyphens ever appear in a `kebabCase` output. -/
theorem kebab_chain (s : String) :
    List.Chain' (fun x y => ¬(x = '-' ∧ y = '-')) (kebabCase s).data :=
  collapse_chain false (fun c hm => trimmed_chars hm)

theorem camelSplit_id : ∀ {l : List Char}, (∀ c ∈ l, isUpperAZ c = false) → camelSplit l = l
  | [], _ => rfl
  | [a], _ => rfl
  | a :: b :: rest, h => by
    have hb : isUpperAZ b = false := h b (by simp)
    rw [show camelSplit (a :: b :: rest) = a :: camelSplit (b :: rest) from by
      simp [camelSplit, hb]]
    rw [camelSplit_id (fun c hm => h c (List.mem_cons_of_mem a hm))]

theorem dropWhile_space_id {l : List Char} (h : l.head? ≠ some ' ') :
    l.dropWhile (fun c => c = ' ') = l := by
  cases l with
  | nil => rfl
  | cons a t =>
    rw [List.dropWhile_cons, if_neg]
    simp only [List.head?_cons, ne_eq, Option.some.injEq] at h
    simp [h]

theorem trimSpaces_id {l : List Char} (h1 : l.head? ≠ some ' ') (h2 : l.getLast? ≠ some ' ') :
    trimSpaces l = l := by
  unfold trimSpaces
  rw [dropWhile_space_id h1, dropWhile_space_id (by rw [List.head?_reverse]; exact h2),
    List.reverse_reverse]

theorem collapseGo_true_eq_false {l : List Char}
    (h : ∀ x, l.head? = some x → isSepChar x = false) :
    collapseGo true l = collapseGo false l := by
  cases l with
  | nil => rfl
  | cons a t => simp [collapseGo, h a rfl]

theorem collapse_map :
    ∀ {l : List Char},
      List.Chain' (fun x y => ¬(isSepChar x = true ∧ isSepChar y = true)) l →
      collapseGo false l = l.map (fun c => if isSepChar c then '-' else c)
  | [], _ => rfl
  | a :: rest, hch => by
    rw [List.chain'_cons'] at hch
    obtain ⟨hhead, htail⟩ := hch
    by_cases hs : isSepChar a = true
    · rw [show collapseGo false (a :: rest) = '-' :: collapseGo true rest from by
        simp [collapseGo, hs]]
      rw [collapseGo_true_eq_false (fun x hx => by
        have h5 := hhead x (by simp [hx])
        simpa [hs] using h5)]
      rw [collapse_map htail, List.map_cons, if_pos hs]
    · rw [show collapseGo false (a :: rest) = a :: collapseGo false rest from by
        simp [collapseGo, hs]]
      rw [collapse_map htail, List.map_cons, if_neg hs]

theorem mk_data (u : String) : String.mk u.data = u := by
  rcases u with ⟨d⟩; rfl

/-- Any list of slug characters and isolated, non-boundary hyphens is a fixed
point of the `kebabCase` pipeline. -/
theorem kebab_fixpoint (t : List Char)
    (h1 : ∀ c ∈ t, c = '-' ∨ slugChar c = true)
    (h2 : List.Chain' (fun x y => ¬(x = '-' ∧ y = '-')) t)
    (h3 : t.head? ≠ some '-') (h4 : t.getLast? ≠ some '-') :
    kebabCase (String.mk t) = String.mk t := by
  have hdata : (String.mk t).data = t := rfl
  unfold kebabCase
  rw [hdata]
  have hA : toSpaces t = t.map (fun c => if c = '-' then ' ' else c) := by
    apply List.map_congr_left
    intro c hcmem
    rcases h1 c hcmem with rfl | hslug
    · decide
    · rw [if_pos (slug_word hslug), if_neg (slug_ne_dash hslug)]
  have hB : camelSplit (t.map (fun c => if c = '-' then ' ' else c)) =
      t.map (fun c => if c = '-' then ' ' else c) := by
    apply camelSplit_id
    intro c hcmem
    rw [List.mem_map] at hcmem
    obtain ⟨a, ha, rfl⟩ := hcmem
    rcases h1 a ha with rfl | hslug
    · decide
    · rw [if_neg (slug_ne_dash hslug)]; exact slug_nonupper hslug
  have hC : trimSpaces (t.map (fun c => if c = '-' then ' ' else c)) =
      t.map (fun c => if c = '-' then ' ' else c) := by
    apply trimSpaces_id
    · rw [List.head?_map]
      intro hcon
      rw [Option.map_eq_some'] at hcon
      obtain ⟨y, hy, hyeq⟩ := hcon
      have hymem : y ∈ t := List.mem_of_mem_head? (by simp [hy])
      have hyne : y ≠ '-' := by
        intro hcontra; subst hcontra; exact h3 hy
      rcases h1 y hymem with rfl | hslug
      · exact hyne rfl
      · rw [if_neg (slug_ne_dash hslug)] at hyeq
        exact slug_ne_space hslug hyeq
    · rw [List.getLast?_map]
      intro hcon
      rw [Option.map_eq_some'] at hcon
      obtain ⟨y, hy, hyeq⟩ := hcon
      have hymem : y ∈ t := List.mem_of_getLast?_eq_some hy
      have hyne : y ≠ '-' := by
        intro hcontra; subst hcontra; exact h4 hy
      rcases h1 y hymem with rfl | hslug
      · exact hyne rfl
      · rw [if_neg (slug_ne_dash hslug)] at hyeq
        exact slug_ne_space hslug hyeq
  have hD : collapseGo false (t.map (fun c => if c = '-' then ' ' else c)) =
      (t.map (fun c => if c = '-' then ' ' else c)).map
        (fun c => if isSepChar c then '-' else c) := by
    apply collapse_map
    rw [List.chain'_map]
    rw [List.chain'_iff_get] at h2 ⊢
    intro i hi
    have hpair := h2 i hi
    have hamem := List.get_mem t i (by omega)
    have hbmem := List.get_mem t (i + 1) (by omega)
    set a := t.get ⟨i, by omega⟩ with ha
    set b := t.get ⟨i + 1, by omega⟩ with hb
    rcases h1 a hamem with ha2 | hslug
    · have hbne : b ≠ '-' := fun hb2 => hpair ⟨ha2, hb2⟩
      rcases h1 b hbmem with hb2 | hslugb
      · exact absurd hb2 hbne
      · rw [if_neg (slug_ne_dash hslugb), slug_nonsep hslugb]
        simp
    · rw [if_neg (slug_ne_dash hslug), slug_nonsep hslug]
      simp
  rw [hA, hB, hC, hD, List.map_map, List.map_map]
  congr 1
  refine (List.map_congr_left ?_).trans (List.map_id t)
  intro c hcmem
  simp only [Function.comp_apply, id_eq]
  rcases h1 c hcmem with rfl | hslug
  · decide
  · rw [if_neg (slug_ne_dash hslug), if_neg (by simp [slug_nonsep hslug])]
    exact slug_tolower hslug

end Slug

/-- C10: the claim states `kebabCase` is idempotent for every string; it is
not: `kebabCase "_a" = "-a"` (the leading underscore becomes a leading
hyphen), but `kebabCase "-a" = "a"`. -/
theorem C10_kebab_idempotent_cex :
    Slug.kebabCase "_a" = "-a" ∧
    Slug.kebabCase (Slug.kebabCase "_a") ≠ Slug.kebabCase "_a" := by
  exact ⟨by decide, by decide⟩

/-- C10 (amended): `kebabCase` is idempotent on every string whose slug does
not start or end with a hyphen (boundary hyphens arise only from boundary
underscores in the input). -/
theorem C10_kebab_idempotent (s : String)
    (h3 : (Slug.kebabCase s).data.head? ≠ some '-')
    (h4 : (Slug.kebabCase s).data.getLast? ≠ some '-') :
    Slug.kebabCase (Slug.kebabCase s) = Slug.kebabCase s := by
  have hfix := Slug.kebab_fixpoint (Slug.kebabCase s).data
    (fun c hc => Slug.kebab_chars hc) (Slug.kebab_chain s) h3 h4
  rwa [Slug.mk_data] at hfix

/-- C10 witness: the amended idempotence at the concrete input `"Hello World!"`. -/
theorem C10_kebab_idempotent_witness :
    Slug.kebabCase (Slug.kebabCase "Hello World!") = Slug.kebabCase "Hello World!" :=
  C10_kebab_idempotent "Hello World!" (by decide) (by decide)

namespace Gen

/-- `CellDefinition` from src/types.ts. -/
structure CellDefinition where
  id : String
  name : String
deriving DecidableEq

/-- The polymorphic `cells` argument of `generateImages` (src/types.ts
`CellDefinitions = string[] | CellDefinition[]`). -/
inductive CellInput where
  | strings (l : List String)
  | defs (l : List CellDefinition)

/-- Normalization of the `cells` argument in `generateImages` (src/lib.ts):
strings are slugified into an id keeping the original as display name;
definitions pass through; a missing argument yields the empty list, which is
then replaced by `rows*columns` generic placeholders. -/
def normalizeCells (cells : Option CellInput) (totalCells : Nat) : List CellDefinition :=
  let cellDefs :=
    match cells with
    | none => []
    | some (.strings l) => l.map (fun s => ⟨Slug.kebabCase s, s⟩)
    | some (.defs l) => l
  if cellDefs.isEmpty then
    (List.range totalCells).map (fun i => ⟨"image-" ++ toString (i + 1), "Image " ++ toString (i + 1)⟩)
  else cellDefs

/-- The batching loop of `generateImages` (src/lib.ts):
`for (let i = 0; i < cellDefs.length; i += totalCells) batches.push(cellDefs.slice(i, i + totalCells))`.
When `totalCells = 0` and the list is non-empty the JavaScript loop never
terminates; this is modelled as `none`. -/
def batchLoop (cells : List CellDefinition) (cap : Nat) (i : Nat) :
    Option (List (List CellDefinition)) :=
  if h : i < cells.length then
    if hc : cap = 0 then none
    else
      match batchLoop cells cap (i + cap) with
      | none => none
      | some rest => some (((cells.drop i).take cap) :: rest)
  else some []
termination_by cells.length - i
decreasing_by omega

def makeBatches (cells : List CellDefinition) (cap : Nat) :
    Option (List (List CellDefinition)) :=
  batchLoop cells cap 0

/-- Characterization of the batching loop from position `i`, for positive
capacity: it always terminates, the batches concatenate to the remaining
cells, each batch is at most `cap` long, and the batch count is the rounded-up
quotient. -/
theorem batchLoop_spec (cells : List CellDefinition) (cap : Nat) (hcap : 0 < cap) :
    ∀ i, ∃ bs, batchLoop cells cap i = some bs ∧
      bs.join = cells.drop i ∧
      (∀ b ∈ bs, b.length ≤ cap) ∧
      bs.length = (cells.length - i + cap - 1) / cap := by
  suffices hfuel : ∀ n i, cells.length - i ≤ n → ∃ bs, batchLoop cells cap i = some bs ∧
      bs.join = cells.drop i ∧
      (∀ b ∈ bs, b.length ≤ cap) ∧
      bs.length = (cells.length - i + cap - 1) / cap by
    intro i
    exact hfuel (cells.length - i) i le_rfl
  have hbase : ∀ i, ¬ i < cells.length →
      ∃ bs, batchLoop cells cap i = some bs ∧
        bs.join = cells.drop i ∧
        (∀ b ∈ bs, b.length ≤ cap) ∧
        bs.length = (cells.length - i + cap - 1) / cap := by
    intro i h
    refine ⟨[], by rw [batchLoop, dif_neg h], ?_, by simp, ?_⟩
    · rw [List.drop_eq_nil_of_le (by omega)]; rfl
    · have e0 : cells.length - i = 0 := by omega
      rw [e0, List.length_nil, Nat.zero_add, Nat.div_eq_of_lt (by omega)]
  intro n
  induction n with
  | zero =>
    intro i hle
    exact hbase i (by omega)
  | succ n ih =>
  intro i hle
  by_cases h : i < cells.length
  · have hrec := ih (i + cap) (by omega)
    obtain ⟨rest, hr1, hr2, hr3, hr4⟩ := hrec
    refine ⟨((cells.drop i).take cap) :: rest, ?_, ?_, ?_, ?_⟩
    · rw [batchLoop, dif_pos h, dif_neg (by omega), hr1]
    · show (List.take cap (List.drop i cells) :: rest).join = List.drop i cells
      rw [show (List.take cap (List.drop i cells) :: rest).join =
        List.take cap (List.drop i cells) ++ rest.join from rfl, hr2]
      rw [← List.drop_drop]
      exact List.take_append_drop cap (cells.drop i)
    · intro b hb
      rcases List.mem_cons.mp hb with rfl | hb
      · exact List.length_take_le cap _
      · exact hr3 b hb
    · rw [List.length_cons, hr4]
      have e2 : cells.length - i + cap - 1 = (cells.length - i - 1) + cap := by omega
      rw [e2, Nat.add_div_right _ hcap]
      congr 1
      by_cases hle2 : cells.length - i ≤ cap
      · have e1 : cells.length - (i + cap) = 0 := by omega
        rw [e1, Nat.zero_add, Nat.div_eq_of_lt (by omega), Nat.div_eq_of_lt (by omega)]
      · have e1 : cells.length - (i + cap) + cap - 1 = cells.length - i - 1 := by omega
        rw [e1]
  · exact hbase i h

end Gen

/-- C1 (amended): for positive `rows` and `columns`, the Orchestrator
partitions any (normalized) cell list into `ceil(N / (rows*columns))`
consecutive batches of at most `rows*columns` cells each, preserving input
order: concatenating all batches reproduces the list. -/
theorem C1_batching (rows columns : Nat) (cells : List Gen.CellDefinition)
    (hr : 1 ≤ rows) (hc : 1 ≤ columns) :
    (Gen.makeBatches cells (rows * columns)).isSome = true ∧
    ∀ bs, Gen.makeBatches cells (rows * columns) = some bs →
      bs.join = cells ∧
      (∀ b ∈ bs, b.length ≤ rows * columns) ∧
      bs.length = (cells.length + rows * columns - 1) / (rows * columns) := by
  have hcap : 0 < rows * columns := Nat.mul_pos hr hc
  obtain ⟨bs, h1, h2, h3, h4⟩ := Gen.batchLoop_spec cells (rows * columns) hcap 0
  constructor
  · rw [Gen.makeBatches, h1]; rfl
  · intro bs2 hbs2
    rw [Gen.makeBatches, h1] at hbs2
    cases hbs2
    exact ⟨by simpa using h2, h3, by simpa using h4⟩

/-- C1 witness: three cells in a 1×2 grid yield two batches `[a,b]`, `[c]`. -/
theorem C1_batching_witness :
    (Gen.makeBatches [⟨"a", "a"⟩, ⟨"b", "b"⟩, ⟨"c", "c"⟩] (1 * 2)).isSome = true ∧
    ([[⟨"a", "a"⟩, ⟨"b", "b"⟩], [⟨"c", "c"⟩]] : List (List Gen.CellDefinition)).join =
      [⟨"a", "a"⟩, ⟨"b", "b"⟩, ⟨"c", "c"⟩] ∧
    (∀ b ∈ ([[⟨"a", "a"⟩, ⟨"b", "b"⟩], [⟨"c", "c"⟩]] : List (List Gen.CellDefinition)),
      b.length ≤ 1 * 2) ∧
    ([[⟨"a", "a"⟩, ⟨"b", "b"⟩], [⟨"c", "c"⟩]] : List (List Gen.CellDefinition)).length =
      (([⟨"a", "a"⟩, ⟨"b", "b"⟩, ⟨"c", "c"⟩] : List Gen.CellDefinition).length + 1 * 2 - 1) /
        (1 * 2) := by
  have h := C1_batching 1 2 [⟨"a", "a"⟩, ⟨"b", "b"⟩, ⟨"c", "c"⟩] (by decide) (by decide)
  refine ⟨h.1, h.2 [[⟨"a", "a"⟩, ⟨"b", "b"⟩], [⟨"c", "c"⟩]] ?_⟩
  simp [Gen.makeBatches, Gen.batchLoop]

/-- C1 counterexample: the claim quantifies over all non-negative `rows` and
`columns`.  With `rows = 0`, `columns = 5` (capacity 0) and one cell, the
batching loop `i += totalCells` never advances, so the source diverges and no
partition is produced (modelled as `none`). -/
theorem C1_batching_cex :
    Gen.makeBatches [⟨"a", "a"⟩] (0 * 5) = none ∧
    (Gen.makeBatches [⟨"a", "a"⟩] (0 * 5)).isSome = false := by
  constructor <;> simp [Gen.makeBatches, Gen.batchLoop]

namespace Gen

/-- `BatchResult` from src/types.ts.  `batchIndex` is an `Int` because the
aggregation records unhandled rejections under index `-1`. -/
structure BatchResult where
  batchIndex : Int
  batchImagePath : String
  imagePaths : List String
  cells : List CellDefinition
  success : Bool
  error : Option String
deriving DecidableEq

/-- A JavaScript `PromiseSettledResult`. -/
inductive Settled (α : Type) where
  | fulfilled (value : α)
  | rejected (reason : String)
deriving DecidableEq

/-- `ImageGenerationResult` from src/types.ts. -/
structure ImageGenerationResult where
  batchImagePaths : List String
  imagePaths : List String
  errors : List (Int × String)
  totalBatches : Nat
  successfulBatches : Nat
deriving DecidableEq

/-- The wrapper around `processBatch` built in `generateImages` (src/lib.ts):
a thrown error becomes a failed `BatchResult` carrying the batch index. -/
def wrapBatchTask (batchIndex : Nat) (cells : List CellDefinition)
    (outcome : Except String BatchResult) : BatchResult :=
  match outcome with
  | .ok r => r
  | .error e => ⟨batchIndex, "", [], cells, false, some e⟩

/-- The aggregation loop of `generateImages` (src/lib.ts): walk the settled
results in order, collecting sheet paths and cell paths of successful batches
and `(batchIndex, error)` pairs of failed ones; a rejected task is recorded
under batch index `-1`. -/
def aggregateParts : List (Settled BatchResult) →
    List String × List String × List (Int × String)
  | [] => ([], [], [])
  | .fulfilled b :: rest =>
    let acc := aggregateParts rest
    if b.success then (b.batchImagePath :: acc.1, b.imagePaths ++ acc.2.1, acc.2.2)
    else
      match b.error with
      | some e => (acc.1, acc.2.1, (b.batchIndex, e) :: acc.2.2)
      | none => acc
  | .rejected e :: rest =>
    let acc := aggregateParts rest
    (acc.1, acc.2.1, (-1, e) :: acc.2.2)

/-- Result construction at the end of `generateImages`:
`successfulBatches = batches.length - errors.length`. -/
def aggregate (totalBatches : Nat) (results : List (Settled BatchResult)) :
    ImageGenerationResult :=
  let acc := aggregateParts results
  ⟨acc.1, acc.2.1, acc.2.2, totalBatches, totalBatches - acc.2.2.length⟩

theorem aggregateParts_rejected {results : List (Settled BatchResult)} {e : String}
    (h : Settled.rejected e ∈ results) : ((-1 : Int), e) ∈ (aggregateParts results).2.2 := by
  induction results with
  | nil => simp at h
  | cons r rest ih =>
    rcases List.mem_cons.mp h with rfl | hmem
    · simp [aggregateParts]
    · have := ih hmem
      cases r with
      | fulfilled b =>
        simp only [aggregateParts]
        by_cases hs : b.success = true
        · simp [hs, this]
        · cases herr : b.error with
          | some e2 => simp [hs, herr, this]
          | none => simpa [hs, herr] using this
      | rejected e2 => simp [aggregateParts, this]

theorem aggregateParts_failed {results : List (Settled BatchResult)} {b : BatchResult}
    {e : String} (h : Settled.fulfilled b ∈ results) (hs : b.success = false)
    (he : b.error = some e) : (b.batchIndex, e) ∈ (aggregateParts results).2.2 := by
  induction results with
  | nil => simp at h
  | cons r rest ih =>
    rcases List.mem_cons.mp h with rfl | hmem
    · simp [aggregateParts, hs, he]
    · have := ih hmem
      cases r with
      | fulfilled b2 =>
        simp only [aggregateParts]
        by_cases hs2 : b2.success = true
        · simp [hs2, this]
        · cases herr : b2.error with
          | some e2 => simp [hs2, herr, this]
          | none => simpa [hs2, herr] using this
      | rejected e2 => simp [aggregateParts, this]

theorem aggregateParts_success {results : List (Settled BatchResult)} {b : BatchResult}
    (h : Settled.fulfilled b ∈ results) (hs : b.success = true) :
    b.batchImagePath ∈ (aggregateParts results).1 ∧
    ∀ p ∈ b.imagePaths, p ∈ (aggregateParts results).2.1 := by
  induction results with
  | nil => simp at h
  | cons r rest ih =>
    rcases List.mem_cons.mp h with rfl | hmem
    · constructor
      · simp [aggregateParts, hs]
      · intro p hp
        simp [aggregateParts, hs, hp]
    · have := ih hmem
      cases r with
      | fulfilled b2 =>
        simp only [aggregateParts]
        by_cases hs2 : b2.success = true
        · exact ⟨by simp [hs2, this.1], fun p hp => by simp [hs2, this.2 p hp]⟩
        · cases herr : b2.error with
          | some e2 => exact ⟨by simp [hs2, herr, this.1], fun p hp => by simp [hs2, herr, this.2 p hp]⟩
          | none => exact ⟨by simpa [hs2, herr] using this.1, fun p hp => by simpa [hs2, herr] using this.2 p hp⟩
      | rejected e2 => exact ⟨by simp [aggregateParts, this.1], fun p hp => by simp [aggregateParts, this.2 p hp]⟩

end Gen

/-- C2: `generateImages` never raises due to a batch failure — the run always
produces a result (the aggregation is a total function) reporting
`totalBatches` and `successfulBatches = totalBatches - errors.length`; every
batch whose processing throws is wrapped into a failed `BatchResult` carrying
its batch index, every failed `BatchResult` appears in the errors list with
its batch index, an unhandled task rejection is recorded under index `-1`,
and every successful batch contributes its sheet path and cell paths
regardless of other batches' failures. -/
theorem C2_run_total (n : Nat) (results : List (Gen.Settled Gen.BatchResult)) :
    (Gen.aggregate n results).totalBatches = n ∧
    (Gen.aggregate n results).successfulBatches = n - (Gen.aggregate n results).errors.length ∧
    (∀ e, Gen.Settled.rejected e ∈ results →
      ((-1 : Int), e) ∈ (Gen.aggregate n results).errors) ∧
    (∀ b e, Gen.Settled.fulfilled b ∈ results → b.success = false → b.error = some e →
      (b.batchIndex, e) ∈ (Gen.aggregate n results).errors) ∧
    (∀ b, Gen.Settled.fulfilled b ∈ results → b.success = true →
      b.batchImagePath ∈ (Gen.aggregate n results).batchImagePaths ∧
      ∀ p ∈ b.imagePaths, p ∈ (Gen.aggregate n results).imagePaths) ∧
    (∀ i cells e, Gen.wrapBatchTask i cells (.error e) =
      ⟨(i : Int), "", [], cells, false, some e⟩) ∧
    (∀ i cells r, Gen.wrapBatchTask i cells (.ok r) = r) := by
  refine ⟨rfl, rfl, ?_, ?_, ?_, fun i cells e => rfl, fun i cells r => rfl⟩
  · exact fun e h => Gen.aggregateParts_rejected h
  · exact fun b e h hs he => Gen.aggregateParts_failed h hs he
  · exact fun b h hs => Gen.aggregateParts_success h hs

/-- C2 witness: a concrete mixed run — one success, one failure, one
rejection — instantiating every clause of the theorem. -/
theorem C2_run_total_witness :
    (Gen.aggregate 3
      [Gen.Settled.fulfilled ⟨0, "s0", ["a"], [], true, none⟩,
       Gen.Settled.fulfilled ⟨1, "", [], [], false, some "boom"⟩,
       Gen.Settled.rejected "lost"]).totalBatches = 3 ∧
    ((-1 : Int), "lost") ∈ (Gen.aggregate 3
      [Gen.Settled.fulfilled ⟨0, "s0", ["a"], [], true, none⟩,
       Gen.Settled.fulfilled ⟨1, "", [], [], false, some "boom"⟩,
       Gen.Settled.rejected "lost"]).errors ∧
    ((1 : Int), "boom") ∈ (Gen.aggregate 3
      [Gen.Settled.fulfilled ⟨0, "s0", ["a"], [], true, none⟩,
       Gen.Settled.fulfilled ⟨1, "", [], [], false, some "boom"⟩,
       Gen.Settled.rejected "lost"]).errors ∧
    "s0" ∈ (Gen.aggregate 3
      [Gen.Settled.fulfilled ⟨0, "s0", ["a"], [], true, none⟩,
       Gen.Settled.fulfilled ⟨1, "", [], [], false, some "boom"⟩,
       Gen.Settled.rejected "lost"]).batchImagePaths := by
  have h := C2_run_total 3
    [Gen.Settled.fulfilled ⟨0, "s0", ["a"], [], true, none⟩,
     Gen.Settled.fulfilled ⟨1, "", [], [], false, some "boom"⟩,
     Gen.Settled.rejected "lost"]
  refine ⟨h.1, h.2.2.1 "lost" (by simp), ?_, ?_⟩
  · exact h.2.2.2.1 ⟨1, "", [], [], false, some "boom"⟩ "boom" (by simp) rfl rfl
  · exact (h.2.2.2.2.1 ⟨0, "s0", ["a"], [], true, none⟩ (by simp) rfl).1

namespace Gen

/-- The results array of `executeWithRateLimit` (src/rate-limiter.ts):
`results[taskIndex] = settledResult` — each task writes its settled result at
its own task index, in whatever order tasks complete.  `order` is the
completion order (the sequence of task indices as they finish). -/
def settleAll (outcomes : List (Settled BatchResult)) (order : List Nat) :
    List (Option (Settled BatchResult)) :=
  order.foldl
    (fun arr i =>
      match outcomes[i]? with
      | some v => arr.set i (some v)
      | none => arr)
    (List.replicate outcomes.length none)

/-- Reading out the filled results array. -/
def collectSettled (arr : List (Option (Settled BatchResult))) :
    List (Settled BatchResult) :=
  arr.filterMap id

theorem settleAll_foldl_length (outcomes : List (Settled BatchResult)) :
    ∀ (order : List Nat) (arr : List (Option (Settled BatchResult))),
      (order.foldl
        (fun arr i =>
          match outcomes[i]? with
          | some v => arr.set i (some v)
          | none => arr) arr).length = arr.length
  | [], _ => rfl
  | i :: rest, arr => by
    rw [List.foldl_cons, settleAll_foldl_length outcomes rest]
    cases outcomes[i]? <;> simp

theorem settleAll_foldl_get (outcomes : List (Settled BatchResult)) :
    ∀ (order : List Nat) (arr : List (Option (Settled BatchResult))) (j : Nat),
      j < arr.length →
      (order.foldl
        (fun arr i =>
          match outcomes[i]? with
          | some v => arr.set i (some v)
          | none => arr) arr)[j]? =
        if j ∈ order ∧ j < outcomes.length then (outcomes[j]?).map some else arr[j]?
  | [], arr, j, hj => by simp
  | i :: rest, arr, j, hj => by
    rw [List.foldl_cons]
    have harr2 : (match outcomes[i]? with
        | some v => arr.set i (some v)
        | none => arr).length = arr.length := by
      cases outcomes[i]? <;> simp
    rw [settleAll_foldl_get outcomes rest _ j (by omega)]
    by_cases hmem : j ∈ rest ∧ j < outcomes.length
    · rw [if_pos hmem, if_pos ⟨List.mem_cons_of_mem i hmem.1, hmem.2⟩]
    · rw [if_neg hmem]
      by_cases hji : j = i ∧ j < outcomes.length
      · obtain ⟨rfl, hlt⟩ := hji
        rw [if_pos ⟨List.mem_cons_self j rest, hlt⟩]
        have hv : outcomes[j]? = some outcomes[j] := List.getElem?_eq_getElem hlt
        rw [hv]
        simp only [Option.map_some']
        exact List.getElem?_set_eq_of_lt _ (by omega)
      · have hcases : ¬ (j ∈ i :: rest ∧ j < outcomes.length) := by
          intro hcon
          rcases List.mem_cons.mp hcon.1 with rfl | hmem2
          · exact hji ⟨rfl, hcon.2⟩
          · exact hmem ⟨hmem2, hcon.2⟩
        rw [if_neg hcases]
        rcases Nat.lt_or_ge i outcomes.length with hi | hi
        · rw [List.getElem?_eq_getElem hi]
          simp only [Option.map_some']
          exact List.getElem?_set_ne (fun hcon => hji ⟨hcon.symm, by omega⟩)
        · rw [List.getElem?_eq_none hi]

/-- Whenever every task index appears in the completion order, the filled
results array is the outcomes in task-index order — independent of the
completion order. -/
theorem settleAll_eq (outcomes : List (Settled BatchResult)) (order : List Nat)
    (hcov : ∀ j, j < outcomes.length → j ∈ order) :
    settleAll outcomes order = outcomes.map some := by
  apply List.ext_getElem?
  intro j
  by_cases hj : j < outcomes.length
  · rw [settleAll, settleAll_foldl_get outcomes order _ j (by simp [hj]),
      if_pos ⟨hcov j hj, hj⟩, List.getElem?_map]
  · have h1 : (settleAll outcomes order).length = outcomes.length := by
      rw [settleAll, settleAll_foldl_length]; simp
    rw [List.getElem?_eq_none (by omega), List.getElem?_eq_none (by simp; omega)]

theorem collectSettled_map_some (outcomes : List (Settled BatchResult)) :
    collectSettled (outcomes.map some) = outcomes := by
  rw [collectSettled, List.filterMap_map]
  simpa using List.filterMap_some outcomes

end Gen

/-- C8 (amended): the aggregated `imagePaths` (and `batchImagePaths`) reflect
input batch-index order, not completion order — `executeWithRateLimit` stores
each settled result at its task index, so the aggregation walks the results
in batch-index order regardless of the order in which batches completed. -/
theorem C8_index_order (n : Nat) (outcomes : List (Gen.Settled Gen.BatchResult))
    (order : List Nat) (hcov : ∀ j, j < outcomes.length → j ∈ order) :
    Gen.collectSettled (Gen.settleAll outcomes order) = outcomes ∧
    Gen.aggregate n (Gen.collectSettled (Gen.settleAll outcomes order)) =
      Gen.aggregate n outcomes := by
  have h := Gen.settleAll_eq outcomes order hcov
  rw [h, Gen.collectSettled_map_some]
  exact ⟨rfl, rfl⟩

/-- C8 witness: two batches completing in reverse order `[1, 0]` still
aggregate in index order. -/
theorem C8_index_order_witness :
    Gen.collectSettled (Gen.settleAll
      [Gen.Settled.fulfilled ⟨0, "s0", ["a"], [], true, none⟩,
       Gen.Settled.fulfilled ⟨1, "s1", ["b"], [], true, none⟩] [1, 0]) =
      [Gen.Settled.fulfilled ⟨0, "s0", ["a"], [], true, none⟩,
       Gen.Settled.fulfilled ⟨1, "s1", ["b"], [], true, none⟩] :=
  (C8_index_order 2
    [Gen.Settled.fulfilled ⟨0, "s0", ["a"], [], true, none⟩,
     Gen.Settled.fulfilled ⟨1, "s1", ["b"], [], true, none⟩] [1, 0]
    (by decide)).1

/-- C8 counterexample: the claim says completion order.  Batch 0 produces
`["a"]` and batch 1 produces `["b"]`; with completion order `[1, 0]` the
claimed completion-order aggregation would give `["b", "a"]`, but the code
yields the index-order `["a", "b"]`. -/
theorem C8_index_order_cex :
    (Gen.aggregate 2 (Gen.collectSettled (Gen.settleAll
      [Gen.Settled.fulfilled ⟨0, "s0", ["a"], [], true, none⟩,
       Gen.Settled.fulfilled ⟨1, "s1", ["b"], [], true, none⟩] [1, 0]))).imagePaths =
      ["a", "b"] ∧
    (["a", "b"] : List String) ≠ ["b", "a"] := by
  exact ⟨by decide, by decide⟩

namespace Kie

/-- One `fetch` outcome for `createTask`: either the transport throws, or an
HTTP response arrives with a status code, an application-level `code` field
and a task id in the body. -/
inductive HttpOutcome where
  | netErr (msg : String)
  | resp (status : Nat) (code : Nat) (taskId : String)

/-- An error value thrown by `createTask`: a transport error, or a
`KieApiError` with HTTP status, optional application code and retryability. -/
inductive CreateErr where
  | net (msg : String)
  | api (httpStatus : Nat) (appCode : Option Nat) (retryable : Bool)
deriving DecidableEq

/-- Outcome of `createTask` (src/kie-ai-client.ts): success with the task id,
an immediately-thrown non-retryable `KieApiError`, or exhaustion of the
attempt budget rethrowing the last retryable error (`none` when the last
failures were HTTP 429/5xx responses, which set no `lastError`).  `fetches`
counts HTTP requests issued and `waits` counts backoff delays taken. -/
inductive CreateResult where
  | ok (taskId : String) (fetches waits : Nat)
  | thrown (e : CreateErr) (fetches waits : Nat)
  | exhausted (last : Option CreateErr) (fetches waits : Nat)
deriving DecidableEq

/-- The retry loop of `createTask`
(`for (let attempt = 0; attempt <= maxRetries; attempt++)`), with
`remaining = maxRetries + 1 - attempt` attempts left.  `script i` is the
outcome of the `i`-th `fetch`.  Note that `continue` after a 429/5xx backoff
still runs the `attempt++` update, so those retries consume attempts. -/
def createTaskFrom (script : Nat → HttpOutcome) : Nat → Nat → Option CreateErr →
    Nat → Nat → CreateResult
  | _, 0, lastErr, fetches, waits => .exhausted lastErr fetches waits
  | i, r + 1, lastErr, fetches, waits =>
    match script i with
    | .netErr msg =>
      createTaskFrom script (i + 1) r (some (.net msg)) (fetches + 1)
        (waits + if 0 < r then 1 else 0)
    | .resp status code taskId =>
      if status = 429 then
        createTaskFrom script (i + 1) r lastErr (fetches + 1) (waits + 1)
      else if 500 ≤ status then
        createTaskFrom script (i + 1) r lastErr (fetches + 1) (waits + 1)
      else if ¬ (200 ≤ status ∧ status ≤ 299) then
        .thrown (.api status none false) (fetches + 1) waits
      else if code ≠ 0 ∧ code ≠ 200 then
        if code = 429 then
          createTaskFrom script (i + 1) r (some (.api status (some code) true)) (fetches + 1)
            (waits + if 0 < r then 1 else 0)
        else .thrown (.api status (some code) false) (fetches + 1) waits
      else .ok taskId (fetches + 1) waits

/-- `createTask(payload, apiKey, maxRetries)` against a response script. -/
def createTask (script : Nat → HttpOutcome) (maxRetries : Nat) : CreateResult :=
  createTaskFrom script 0 (maxRetries + 1) none 0 0

theorem createTask_all429 (maxRetries : Nat) :
    createTask (fun _ => .resp 429 0 "") maxRetries =
      .exhausted none (maxRetries + 1) (maxRetries + 1) := by
  rw [createTask]
  suffices h : ∀ r i f w, createTaskFrom (fun _ => HttpOutcome.resp 429 0 "") i r none f w =
      .exhausted none (f + r) (w + r) by
    simpa using h (maxRetries + 1) 0 0 0
  intro r
  induction r with
  | zero => intro i f w; simp [createTaskFrom]
  | succ r ih =>
    intro i f w
    rw [createTaskFrom]
    simp only [if_pos rfl]
    rw [ih (i + 1) (f + 1) (w + 1), show f + 1 + r = f + (r + 1) from by omega,
      show w + 1 + r = w + (r + 1) from by omega]
    simp

end Kie

/-- C3 (amended): for `createTask`, an HTTP 429 or 5xx response causes a
backoff wait and a retry that does consume one of the `maxRetries + 1` total
attempts (the `continue` still runs `attempt++`); exhausting the budget on
429/5xx throws instead of retrying.  Any other non-2xx HTTP status, or an
application-level `code` other than 0/200 that is not the rate-limit code
429, fails immediately with no retry; an application-level 429 is retryable
(and also consumes an attempt). -/
theorem C3_createTask_retry (mr : Nat) (tid : String) :
    (1 ≤ mr → Kie.createTask
      (fun k => if k = 0 then .resp 429 0 "" else .resp 200 0 tid) mr =
      .ok tid 2 1) ∧
    (1 ≤ mr → Kie.createTask
      (fun k => if k = 0 then .resp 503 0 "" else .resp 200 0 tid) mr =
      .ok tid 2 1) ∧
    (Kie.createTask (fun _ => .resp 429 0 "") mr =
      .exhausted none (mr + 1) (mr + 1)) ∧
    (Kie.createTask
      (fun k => if k = 0 then .resp 400 0 "" else .resp 200 0 tid) mr =
      .thrown (.api 400 none false) 1 0) ∧
    (Kie.createTask
      (fun k => if k = 0 then .resp 200 500 "x" else .resp 200 0 tid) mr =
      .thrown (.api 200 (some 500) false) 1 0) ∧
    (1 ≤ mr → Kie.createTask
      (fun k => if k = 0 then .resp 200 429 "" else .resp 200 0 tid) mr =
      .ok tid 2 1) := by
  refine ⟨?_, ?_, Kie.createTask_all429 mr, ?_, ?_, ?_⟩
  · intro h
    obtain ⟨m, rfl⟩ : ∃ m, mr = m + 1 := ⟨mr - 1, by omega⟩
    rw [Kie.createTask, Kie.createTaskFrom]
    norm_num
    rw [Kie.createTaskFrom]
    norm_num
  · intro h
    obtain ⟨m, rfl⟩ : ∃ m, mr = m + 1 := ⟨mr - 1, by omega⟩
    rw [Kie.createTask, Kie.createTaskFrom]
    norm_num
    rw [Kie.createTaskFrom]
    norm_num
  · rw [Kie.createTask, Kie.createTaskFrom]
    norm_num
  · rw [Kie.createTask, Kie.createTaskFrom]
    norm_num
  · intro h
    obtain ⟨m, rfl⟩ : ∃ m, mr = m + 1 := ⟨mr - 1, by omega⟩
    rw [Kie.createTask, Kie.createTaskFrom]
    norm_num
    rw [Kie.createTaskFrom]
    norm_num

/-- C3 witness: the amended behavior at `maxRetries = 1`. -/
theorem C3_createTask_retry_witness :
    Kie.createTask
      (fun k => if k = 0 then .resp 429 0 "" else .resp 200 0 "tid") 1 =
      .ok "tid" 2 1 ∧
    Kie.createTask
      (fun k => if k = 0 then .resp 400 0 "" else .resp 200 0 "tid") 1 =
      .thrown (.api 400 none false) 1 0 :=
  ⟨(C3_createTask_retry 1 "tid").1 (by decide),
   (C3_createTask_retry 1 "tid").2.2.2.1⟩

/-- C3 counterexample: the claim says a 429 retry does not consume one of the
`maxRetries` attempts.  With `maxRetries = 0` (one attempt) and a script
answering 429 then success, a free retry would fetch twice and succeed; the
code instead exhausts its single attempt after one fetch and throws. -/
theorem C3_createTask_retry_cex :
    Kie.createTask
      (fun k => if k = 0 then .resp 429 0 "" else .resp 200 0 "tid") 0 =
      .exhausted none 1 1 ∧
    Kie.createTask
      (fun k => if k = 0 then .resp 429 0 "" else .resp 200 0 "tid") 0 ≠
      .ok "tid" 2 1 := by
  exact ⟨rfl, by decide⟩

namespace Kie

/-- Remote task states (src/kie-ai-client.ts `KieAiTaskStatusResponse`). -/
inductive TaskState where
  | waiting | queuing | generating | success | fail
deriving DecidableEq

/-- One `fetch` outcome while polling: transport error, or an HTTP response
carrying the status code and, for 2xx responses, the task state with the
parsed `resultJson` URLs and failure code/message. -/
inductive PollFetch where
  | netErr (msg : String)
  | resp (status : Nat) (state : TaskState) (urls : List String)
      (failCode failMsg : String)

/-- Outcome of `pollTaskStatus`: the parsed result URLs, a permanent
`TaskFailedError`, a `KieApiError` after 5 consecutive poll errors, or a
`TaskTimeoutError` carrying the task id and the attempt budget.  `fetches`
counts status requests issued. -/
inductive PollOutcome where
  | ok (urls : List String) (fetches : Nat)
  | taskFailed (taskId failCode failMsg : String) (fetches : Nat)
  | apiError (fetches : Nat)
  | timeout (taskId : String) (maxAttempts : Nat) (fetches : Nat)
deriving DecidableEq

/-- The poll loop of `pollTaskStatus`
(`for (let attempt = 0; attempt < maxAttempts; attempt++)`), with `remaining`
iterations left and `consecErr` consecutive failed polls so far.  An HTTP 429
waits and `continue`s (which still consumes an attempt and does not reset the
error counter); other non-2xx responses and transport errors bump the
counter, failing permanently at 5; a 2xx response resets the counter and
dispatches on the task state. -/
def pollFrom (script : Nat → PollFetch) (taskId : String) (maxAttempts : Nat) :
    Nat → Nat → Nat → PollOutcome
  | i, _, 0 => .timeout taskId maxAttempts i
  | i, consecErr, r + 1 =>
    match script i with
    | .netErr _ =>
      if 5 ≤ consecErr + 1 then .apiError (i + 1)
      else pollFrom script taskId maxAttempts (i + 1) (consecErr + 1) r
    | .resp status state urls failCode failMsg =>
      if status = 429 then pollFrom script taskId maxAttempts (i + 1) consecErr r
      else if ¬ (200 ≤ status ∧ status ≤ 299) then
        if 5 ≤ consecErr + 1 then .apiError (i + 1)
        else pollFrom script taskId maxAttempts (i + 1) (consecErr + 1) r
      else
        match state with
        | .success => .ok urls (i + 1)
        | .fail => .taskFailed taskId failCode failMsg (i + 1)
        | _ => pollFrom script taskId maxAttempts (i + 1) 0 r

/-- `pollTaskStatus(taskId, apiKey, maxAttempts, interval)` against a
response script. -/
def pollTaskStatus (script : Nat → PollFetch) (taskId : String)
    (maxAttempts : Nat) : PollOutcome :=
  pollFrom script taskId maxAttempts 0 0 maxAttempts

theorem poll_generating_timeout (taskId : String) (script : Nat → PollFetch)
    (hgen : ∀ k, script k = .resp 200 .generating [] "" "") (maxAttempts : Nat) :
    pollTaskStatus script taskId maxAttempts = .timeout taskId maxAttempts maxAttempts := by
  rw [pollTaskStatus]
  suffices h : ∀ r i, pollFrom script taskId maxAttempts i 0 r = .timeout taskId maxAttempts (i + r) by
    simpa using h maxAttempts 0
  intro r
  induction r with
  | zero => intro i; simp [pollFrom]
  | succ r ih =>
    intro i
    rw [pollFrom, hgen i]
    norm_num
    rw [ih (i + 1), show i + 1 + r = i + (r + 1) from by omega]

end Kie

/-- C4: a remote status sequence `generating, generating, success` yields
exactly 3 status fetches and returns the URL list parsed from the embedded
result payload; a status sequence that never leaves `generating` within
`maxAttempts` polls raises a `TaskTimeoutError` carrying the task id and the
attempt count. -/
theorem C4_poll (taskId : String) (urls : List String) (mA : Nat)
    (script : Nat → Kie.PollFetch)
    (h0 : script 0 = .resp 200 .generating [] "" "")
    (h1 : script 1 = .resp 200 .generating [] "" "")
    (h2 : script 2 = .resp 200 .success urls "" "")
    (hm : 3 ≤ mA) :
    Kie.pollTaskStatus script taskId mA = .ok urls 3 ∧
    ∀ script2 : Nat → Kie.PollFetch,
      (∀ k, script2 k = .resp 200 .generating [] "" "") →
      Kie.pollTaskStatus script2 taskId mA = .timeout taskId mA mA := by
  constructor
  · obtain ⟨m, rfl⟩ : ∃ m, mA = m + 3 := ⟨mA - 3, by omega⟩
    rw [Kie.pollTaskStatus]
    rw [show m + 3 = (m + 2) + 1 from by omega, Kie.pollFrom, h0]
    norm_num
    rw [show m + 2 = (m + 1) + 1 from by omega, Kie.pollFrom, h1]
    norm_num
    rw [Kie.pollFrom, h2]
    norm_num
  · intro script2 hgen
    exact Kie.poll_generating_timeout taskId script2 hgen mA

/-- C4 witness: the concrete three-step script at `maxAttempts = 3`. -/
theorem C4_poll_witness :
    Kie.pollTaskStatus
      (fun k => if k = 0 then .resp 200 .generating [] "" ""
        else if k = 1 then .resp 200 .generating [] "" ""
        else .resp 200 .success ["u1"] "" "") "task-1" 3 = .ok ["u1"] 3 ∧
    Kie.pollTaskStatus (fun _ => .resp 200 .generating [] "" "") "task-1" 3 =
      .timeout "task-1" 3 3 := by
  have h := C4_poll "task-1" ["u1"] 3
    (fun k => if k = 0 then .resp 200 .generating [] "" ""
      else if k = 1 then .resp 200 .generating [] "" ""
      else .resp 200 .success ["u1"] "" "") rfl rfl rfl (by decide)
  exact ⟨h.1, h.2 (fun _ => .resp 200 .generating [] "" "") (fun k => rfl)⟩

namespace Sheet

/-- One written cell file: its filename stem, full output path, and the crop
rectangle passed to `sharp(...).extract`. -/
structure CellFile where
  name : String
  path : String
  left : Nat
  top : Nat
  width : Nat
  height : Nat
deriving DecidableEq

/-- The inner column loop of `splitSpriteSheet` (src/lib.ts), including the
(dead) `if (cellIndex >= totalCells) break` guard. -/
def splitColLoop (filenames : List String) (outputPath outputFormat : String)
    (cellWidth cellHeight rows columns row : Nat) (col : Nat) : List CellFile :=
  if h : col < columns then
    if rows * columns ≤ row * columns + col then []
    else
      let cellIndex := row * columns + col
      let filename := filenames.getD cellIndex ("image-" ++ toString (cellIndex + 1))
      { name := filename,
        path := outputPath ++ "/" ++ filename ++ "." ++ outputFormat,
        left := col * cellWidth, top := row * cellHeight,
        width := cellWidth, height := cellHeight } ::
        splitColLoop filenames outputPath outputFormat cellWidth cellHeight rows columns row
          (col + 1)
  else []
termination_by columns - col
decreasing_by omega

/-- The outer row loop of `splitSpriteSheet`. -/
def splitRowLoop (filenames : List String) (outputPath outputFormat : String)
    (cellWidth cellHeight rows columns : Nat) (row : Nat) : List CellFile :=
  if h : row < rows then
    splitColLoop filenames outputPath outputFormat cellWidth cellHeight rows columns row 0 ++
      splitRowLoop filenames outputPath outputFormat cellWidth cellHeight rows columns (row + 1)
  else []
termination_by rows - row
decreasing_by omega

/-- `splitSpriteSheet(spriteBuffer, outputPath, filenames, outputFormat, rows, columns)`
from src/lib.ts.  The decoded image is abstracted by its metadata dimensions
(`none` when sharp cannot determine them; a `0` dimension is falsy in JS and
is also rejected).  `cellWidth = floor(width / columns)`,
`cellHeight = floor(height / rows)`; cells are cropped in row-major order. -/
def splitSpriteSheet (dims : Option (Nat × Nat)) (outputPath : String)
    (filenames : List String) (outputFormat : String) (rows columns : Nat) :
    Except String (List CellFile) :=
  match dims with
  | none => .error "Could not determine sprite sheet dimensions"
  | some (width, height) =>
    if width = 0 ∨ height = 0 then .error "Could not determine sprite sheet dimensions"
    else
      .ok (splitRowLoop filenames outputPath outputFormat (width / columns) (height / rows)
        rows columns 0)

/-- The cell file written for grid position `(row, col)`. -/
def cellFileAt (filenames : List String) (outputPath outputFormat : String)
    (cellWidth cellHeight columns row col : Nat) : CellFile :=
  let cellIndex := row * columns + col
  let filename := filenames.getD cellIndex ("image-" ++ toString (cellIndex + 1))
  { name := filename,
    path := outputPath ++ "/" ++ filename ++ "." ++ outputFormat,
    left := col * cellWidth, top := row * cellHeight,
    width := cellWidth, height := cellHeight }

theorem break_not_taken {rows columns row col : Nat} (hrow : row < rows) (hcol : col < columns) :
    ¬ rows * columns ≤ row * columns + col := by
  have hmul : (row + 1) * columns ≤ rows * columns := Nat.mul_le_mul_right columns hrow
  rw [Nat.succ_mul] at hmul
  omega

theorem splitColLoop_unfold (filenames : List String) (outputPath outputFormat : String)
    (cellWidth cellHeight rows columns row col : Nat) (hrow : row < rows)
    (hcol : col < columns) :
    splitColLoop filenames outputPath outputFormat cellWidth cellHeight rows columns row col =
      cellFileAt filenames outputPath outputFormat cellWidth cellHeight columns row col ::
        splitColLoop filenames outputPath outputFormat cellWidth cellHeight rows columns row
          (col + 1) := by
  rw [splitColLoop, dif_pos hcol, if_neg (break_not_taken hrow hcol)]
  rfl

theorem splitColLoop_length (filenames : List String) (outputPath outputFormat : String)
    (cellWidth cellHeight rows columns row : Nat) (hrow : row < rows) :
    ∀ n col, columns - col ≤ n →
      (splitColLoop filenames outputPath outputFormat cellWidth cellHeight rows columns row
        col).length = columns - col := by
  intro n
  induction n with
  | zero =>
    intro col hle
    rw [splitColLoop, dif_neg (by omega)]
    simp only [List.length_nil]
    omega
  | succ n ih =>
    intro col hle
    by_cases h : col < columns
    · rw [splitColLoop_unfold _ _ _ _ _ _ _ _ _ hrow h, List.length_cons,
        ih (col + 1) (by omega)]
      omega
    · rw [splitColLoop, dif_neg h]
      simp only [List.length_nil]
      omega

theorem splitColLoop_get (filenames : List String) (outputPath outputFormat : String)
    (cellWidth cellHeight rows columns row : Nat) (hrow : row < rows) :
    ∀ n col j, columns - col ≤ n → j < columns - col →
      (splitColLoop filenames outputPath outputFormat cellWidth cellHeight rows columns row
        col)[j]? =
        some (cellFileAt filenames outputPath outputFormat cellWidth cellHeight columns row
          (col + j)) := by
  intro n
  induction n with
  | zero =>
    intro col j hle hj
    exact absurd hj (by omega)
  | succ n ih =>
    intro col j hle hj
    have h : col < columns := by omega
    rw [splitColLoop_unfold _ _ _ _ _ _ _ _ _ hrow h]
    cases j with
    | zero => rw [List.getElem?_cons_zero, Nat.add_zero]
    | succ j =>
      rw [List.getElem?_cons_succ, ih (col + 1) j (by omega) (by omega),
        show col + 1 + j = col + (j + 1) from by omega]

theorem splitRowLoop_length (filenames : List String) (outputPath outputFormat : String)
    (cellWidth cellHeight rows columns : Nat) :
    ∀ n row, rows - row ≤ n →
      (splitRowLoop filenames outputPath outputFormat cellWidth cellHeight rows columns
        row).length = (rows - row) * columns := by
  intro n
  induction n with
  | zero =>
    intro row hle
    rw [splitRowLoop, dif_neg (by omega)]
    simp only [List.length_nil]
    rw [show rows - row = 0 from by omega, Nat.zero_mul]
  | succ n ih =>
    intro row hle
    by_cases h : row < rows
    · rw [splitRowLoop, dif_pos h, List.length_append,
        splitColLoop_length _ _ _ _ _ _ _ _ h (columns - 0) 0 le_rfl,
        ih (row + 1) (by omega)]
      have e : rows - row = (rows - (row + 1)) + 1 := by omega
      rw [e, Nat.succ_mul]
      omega
    · rw [splitRowLoop, dif_neg h]
      simp only [List.length_nil]
      rw [show rows - row = 0 from by omega, Nat.zero_mul]

theorem splitRowLoop_get (filenames : List String) (outputPath outputFormat : String)
    (cellWidth cellHeight rows columns : Nat) :
    ∀ d row c, row + d < rows → c < columns →
      (splitRowLoop filenames outputPath outputFormat cellWidth cellHeight rows columns
        row)[d * columns + c]? =
        some (cellFileAt filenames outputPath outputFormat cellWidth cellHeight columns
          (row + d) c) := by
  intro d
  induction d with
  | zero =>
    intro row c hrow hc
    rw [splitRowLoop, dif_pos (by omega), Nat.zero_mul, Nat.zero_add,
      List.getElem?_append, if_pos (by
        rw [splitColLoop_length _ _ _ _ _ _ _ _ (by omega) (columns - 0) 0 le_rfl]
        omega),
      splitColLoop_get _ _ _ _ _ _ _ _ (by omega) (columns - 0) 0 c le_rfl (by omega),
      Nat.zero_add, Nat.add_zero]
  | succ d ih =>
    intro row c hrow hc
    have hlen : (splitColLoop filenames outputPath outputFormat cellWidth cellHeight rows
        columns row 0).length = columns := by
      rw [splitColLoop_length _ _ _ _ _ _ _ _ (by omega) (columns - 0) 0 le_rfl]
      omega
    rw [splitRowLoop, dif_pos (by omega), List.getElem?_append,
      if_neg (by rw [hlen]; push_neg; calc columns ≤ d * columns + columns := by omega
        _ ≤ (d + 1) * columns + c := by rw [Nat.succ_mul]; omega), hlen]
    have e : (d + 1) * columns + c - columns = d * columns + c := by
      rw [Nat.succ_mul]; omega
    rw [e, ih (row + 1) c (by omega) hc, show row + 1 + d = row + (d + 1) from by omega]

end Sheet

/-- C5: for a sheet image with decodable dimensions `W×H` split into
`rows×columns`, `splitSpriteSheet` writes exactly `rows*columns` files in
row-major order, where cell `(r,c)` is the pixel rectangle at
`(c*floor(W/columns), r*floor(H/rows))` of size
`floor(W/columns) × floor(H/rows)`, named `filenames[k]` for
`k = r*columns+c` when provided and `image-<k+1>` otherwise; if the
dimensions cannot be determined it fails immediately. -/
theorem C5_splitSpriteSheet (w h rows columns : Nat) (outputPath outputFormat : String)
    (filenames : List String) (hw : w ≠ 0) (hh : h ≠ 0) :
    ((Sheet.splitSpriteSheet (some (w, h)) outputPath filenames outputFormat rows
      columns).toOption.map List.length = some (rows * columns)) ∧
    (∀ r c, r < rows → c < columns →
      (Sheet.splitSpriteSheet (some (w, h)) outputPath filenames outputFormat rows
        columns).toOption.bind (fun files => files[r * columns + c]?) =
        some { name := filenames.getD (r * columns + c)
                 ("image-" ++ toString (r * columns + c + 1)),
               path := outputPath ++ "/" ++ filenames.getD (r * columns + c)
                 ("image-" ++ toString (r * columns + c + 1)) ++ "." ++ outputFormat,
               left := c * (w / columns), top := r * (h / rows),
               width := w / columns, height := h / rows }) ∧
    (Sheet.splitSpriteSheet none outputPath filenames outputFormat rows columns =
      .error "Could not determine sprite sheet dimensions") := by
  have hok : Sheet.splitSpriteSheet (some (w, h)) outputPath filenames outputFormat rows
      columns = .ok (Sheet.splitRowLoop filenames outputPath outputFormat (w / columns)
        (h / rows) rows columns 0) := by
    rw [Sheet.splitSpriteSheet, if_neg (by tauto)]
  refine ⟨?_, ?_, rfl⟩
  · rw [hok]
    simp only [Except.toOption, Option.map_some']
    rw [Sheet.splitRowLoop_length _ _ _ _ _ _ _ (rows - 0) 0 le_rfl]
    simp
  · intro r c hr hc
    rw [hok]
    simp only [Except.toOption, Option.some_bind]
    have := Sheet.splitRowLoop_get filenames outputPath outputFormat (w / columns)
      (h / rows) rows columns r 0 c (by omega) hc
    rw [Nat.zero_add] at this
    rw [this]
    rfl

/-- C5 witness: a 100×50 sheet split 2×2 with two provided filenames —
4 files, and cell `(1,1)` is the 50×25 rectangle at `(50, 25)` with the
positional fallback name `image-4`. -/
theorem C5_splitSpriteSheet_witness :
    ((Sheet.splitSpriteSheet (some (100, 50)) "out/images" ["a", "b"] "png" 2
      2).toOption.map List.length = some (2 * 2)) ∧
    ((Sheet.splitSpriteSheet (some (100, 50)) "out/images" ["a", "b"] "png" 2
      2).toOption.bind (fun files => files[1 * 2 + 1]?) =
      some { name := "image-4", path := "out/images/image-4.png",
             left := 50, top := 25, width := 50, height := 25 }) ∧
    (Sheet.splitSpriteSheet none "out/images" ["a", "b"] "png" 2 2 =
      .error "Could not determine sprite sheet dimensions") := by
  have h := C5_splitSpriteSheet 100 50 2 2 "out/images" "png" ["a", "b"]
    (by decide) (by decide)
  refine ⟨h.1, ?_, h.2.2⟩
  have h2 := h.2.1 1 1 (by decide) (by decide)
  rw [h2]
  rfl

namespace Prompt

/-- `Math.ceil(Math.sqrt(n))` (exact for natural inputs). -/
def ceilSqrt (n : Nat) : Nat :=
  if Nat.sqrt n * Nat.sqrt n = n then Nat.sqrt n else Nat.sqrt n + 1

/-- The grid-size label in `buildSpritePrompt` (src/lib.ts):
`cellNames.length <= 25 ? '5x5' : ceil(sqrt(N)) + 'x' + ceil(sqrt(N))`. -/
def gridSize (n : Nat) : String :=
  if n ≤ 25 then "5x5"
  else toString (ceilSqrt n) ++ "x" ++ toString (ceilSqrt n)

/-- The grid-size label as the spec words it (refinement comparison):
`5x5` only for a perfect 25-cell grid, `ceil(sqrt(N))` otherwise. -/
def specGridSize (n : Nat) : String :=
  if n = 25 then "5x5"
  else toString (ceilSqrt n) ++ "x" ++ toString (ceilSqrt n)

/-- The `- name` subject lines, in input order. -/
def subjectLines (cellNames : List String) : List String :=
  cellNames.map (fun nm => "- " ++ nm)

/-- `buildSpritePrompt(userPrompt, cellNames)` from src/lib.ts.  The template
has no boundary whitespace, so the final `.trim()` is the identity and is
omitted. -/
def buildSpritePrompt (userPrompt : String) (cellNames : List String) : String :=
  "A " ++ gridSize cellNames.length ++ " sprite sheet grid containing " ++
    toString cellNames.length ++ " distinct, isolated images.\n\nCRITICAL REQUIREMENTS:\n- Each cell contains ONLY the subject with NO text, labels, numbers, or annotations\n- NO grid lines, borders, or cell dividers visible in the final image\n- Each image is completely separate and self-contained within its grid cell\n- Clean, consistent backgrounds across all cells\n- Professional quality, sharp focus, high detail\n\nSTYLE:\n" ++
    userPrompt ++
    "\n\nSUBJECTS (one per cell, in reading order left-to-right, top-to-bottom):\n" ++
    String.intercalate "\n" (subjectLines cellNames) ++
    "\n\nGenerate a seamless sprite sheet where each cell is visually distinct yet stylistically cohesive. No overlapping elements between cells. Equal spacing throughout."

theorem cellFileAt_name (filenames : List String) (outputPath outputFormat : String)
    (cellWidth cellHeight columns row col : Nat) :
    (Sheet.cellFileAt filenames outputPath outputFormat cellWidth cellHeight columns row
      col).name =
      filenames.getD (row * columns + col)
        ("image-" ++ toString (row * columns + col + 1)) := rfl

end Prompt

/-- C9 (amended): the built prompt announces a `5x5` grid whenever the batch
has at most 25 subjects, and a `ceil(sqrt(N)) × ceil(sqrt(N))` grid for more
than 25; it enumerates the N subject names in input (reading) order, and the
`k`-th enumerated subject corresponds to the `k`-th cell cropped by the Sheet
Partitioner in row-major order (named `ids[k]`), so content order and crop
order agree. -/
theorem C9_prompt_order (names ids : List String) (w h rows columns k : Nat)
    (outDir fmt : String)
    (hlen : ids.length = names.length) (hk : k < names.length)
    (hcols : 0 < columns) (hkc : k < rows * columns) (hw : w ≠ 0) (hh : h ≠ 0) :
    (names.length ≤ 25 → Prompt.gridSize names.length = "5x5") ∧
    (25 < names.length → Prompt.gridSize names.length =
      toString (Prompt.ceilSqrt names.length) ++ "x" ++
        toString (Prompt.ceilSqrt names.length)) ∧
    ((Prompt.subjectLines names)[k]? = (names[k]?).map (fun nm => "- " ++ nm)) ∧
    ((Sheet.splitSpriteSheet (some (w, h)) outDir ids fmt rows columns).toOption.bind
      (fun files => (files[k]?).map Sheet.CellFile.name) = ids[k]?) := by
  refine ⟨fun hle => by rw [Prompt.gridSize, if_pos hle],
    fun hgt => by rw [Prompt.gridSize, if_neg (by omega)],
    List.getElem?_map _ names k, ?_⟩
  have hok : Sheet.splitSpriteSheet (some (w, h)) outDir ids fmt rows columns =
      .ok (Sheet.splitRowLoop ids outDir fmt (w / columns) (h / rows) rows columns 0) := by
    rw [Sheet.splitSpriteSheet, if_neg (by tauto)]
  rw [hok]
  simp only [Except.toOption, Option.some_bind]
  have hk2 : k / columns * columns + k % columns = k := by
    rw [Nat.mul_comm]
    exact Nat.div_add_mod k columns
  have hc : k % columns < columns := Nat.mod_lt k hcols
  have hr : k / columns < rows := by
    by_contra hcon
    push_neg at hcon
    have := Nat.mul_le_mul_right columns hcon
    omega
  have hget := Sheet.splitRowLoop_get ids outDir fmt (w / columns) (h / rows) rows columns
    (k / columns) 0 (k % columns) (by omega) hc
  rw [Nat.zero_add] at hget
  rw [hk2] at hget
  rw [hget, Option.map_some', Prompt.cellFileAt_name, hk2]
  rw [List.getD_eq_getElem?_getD, List.getElem?_eq_getElem (by omega),
    Option.getD_some]

/-- C9 witness: 4 names in a 2×2 grid — `5x5` label (since 4 ≤ 25), the
second subject line is `- b`, and the second cropped cell is named `id-b`. -/
theorem C9_prompt_order_witness :
    Prompt.gridSize 4 = "5x5" ∧
    (Prompt.subjectLines ["a", "b", "c", "d"])[1]? = some "- b" ∧
    ((Sheet.splitSpriteSheet (some (64, 64)) "o" ["id-a", "id-b", "id-c", "id-d"] "png" 2
      2).toOption.bind (fun files => (files[1]?).map Sheet.CellFile.name) = some "id-b") := by
  have h := C9_prompt_order ["a", "b", "c", "d"] ["id-a", "id-b", "id-c", "id-d"]
    64 64 2 2 1 "o" "png" rfl (by decide) (by decide) (by decide) (by decide) (by decide)
  exact ⟨h.1 (by decide), h.2.2.1, h.2.2.2⟩

/-- C9 counterexample: the claim announces a `ceil(sqrt(N))` grid whenever N
is not a perfect 25-cell grid, i.e. `2x2` for 4 subjects; the code announces
`5x5` for every N ≤ 25. -/
theorem C9_prompt_order_cex :
    Prompt.gridSize 4 = "5x5" ∧
    Prompt.specGridSize 4 = "2x2" ∧
    Prompt.gridSize 4 ≠ Prompt.specGridSize 4 ∧
    (Prompt.buildSpritePrompt "style" ["a", "b", "c", "d"]).data.take 5 =
      ['A', ' ', '5', 'x', '5'] := by
  have hsq : Nat.sqrt 4 = 2 := by
    rw [show (4 : Nat) = 2 * 2 from rfl, Nat.sqrt_eq]
  have hcs : Prompt.ceilSqrt 4 = 2 := by
    rw [Prompt.ceilSqrt, hsq]
    norm_num
  have e2 : Prompt.specGridSize 4 = "2x2" := by
    rw [Prompt.specGridSize, if_neg (by omega), hcs]
    rfl
  refine ⟨by decide, e2, ?_, by decide⟩
  rw [e2]
  decide

namespace Proc

inductive ExistingPolicy where
  | overwrite | skip
deriving DecidableEq

/-- The options of `processBatch` that its control flow reads
(src/types.ts `ImageGenerationOptions`, restricted to the fields used by the
modelled paths). -/
structure GenOptions where
  rows : Nat
  columns : Nat
  outputPath : String
  existing : ExistingPolicy
  outputFormat : String
deriving DecidableEq

/-- The external effects of one `processBatch` run, as oracles:
whether the batch sheet file exists, the decode of the existing sheet
(`sharp(path).toBuffer` + metadata), and the results of the remote calls on
the regeneration path. -/
structure ProcEnv where
  sheetExists : Bool
  existingSheetDims : Except String (Option (Nat × Nat))
  createTaskResult : Except String String
  pollResult : Except String (List String)
  downloadResult : Except String Unit
  newSheetDims : Except String (Option (Nat × Nat))

/-- Observable calls made by `processBatch`, in order. -/
inductive PEvent where
  | acquireSlot | submitTask | pollStatus | downloadSheet
deriving DecidableEq

/-- `join(opts.outputPath, 'batches', `batch-${batchIndex+1}.${opts.outputFormat}`)`. -/
def batchSheetPath (opts : GenOptions) (batchIndex : Nat) : String :=
  opts.outputPath ++ "/batches/batch-" ++ toString (batchIndex + 1) ++ "." ++ opts.outputFormat

def imagesDir (opts : GenOptions) : String := opts.outputPath ++ "/images"

/-- The regeneration path of `processBatch` (src/lib.ts): build the prompt,
acquire a rate-limiter slot, create the task, poll, download the first result
URL, re-decode the sheet and split it.  Any thrown error propagates
(`Except.error`); an empty result URL list throws. -/
def regenerate (batchIndex : Nat) (cells : List Gen.CellDefinition) (opts : GenOptions)
    (env : ProcEnv) : Except String Gen.BatchResult × List PEvent :=
  match env.createTaskResult with
  | .error e => (.error e, [.acquireSlot, .submitTask])
  | .ok _taskId =>
    match env.pollResult with
    | .error e => (.error e, [.acquireSlot, .submitTask, .pollStatus])
    | .ok urls =>
      if urls.isEmpty then
        (.error ("No image URLs returned for batch " ++ toString (batchIndex + 1)),
          [.acquireSlot, .submitTask, .pollStatus])
      else
        match env.downloadResult with
        | .error e => (.error e, [.acquireSlot, .submitTask, .pollStatus, .downloadSheet])
        | .ok _ =>
          match env.newSheetDims with
          | .error e => (.error e, [.acquireSlot, .submitTask, .pollStatus, .downloadSheet])
          | .ok dims =>
            match Sheet.splitSpriteSheet dims (imagesDir opts) (cells.map (fun c => c.id))
                opts.outputFormat opts.rows opts.columns with
            | .error e => (.error e, [.acquireSlot, .submitTask, .pollStatus, .downloadSheet])
            | .ok files =>
              (.ok ⟨batchIndex, batchSheetPath opts batchIndex,
                files.map (fun f => f.path), cells, true, none⟩,
                [.acquireSlot, .submitTask, .pollStatus, .downloadSheet])

/-- `processBatch` (src/lib.ts): when the existing-file policy is `skip` and
the sheet file exists, re-derive cell images from the existing sheet and
return success, making no remote call; if that re-derivation throws, fall
through to full regeneration. -/
def processBatch (batchIndex : Nat) (cells : List Gen.CellDefinition) (opts : GenOptions)
    (env : ProcEnv) : Except String Gen.BatchResult × List PEvent :=
  if opts.existing = ExistingPolicy.skip ∧ env.sheetExists = true then
    match env.existingSheetDims with
    | .ok dims =>
      match Sheet.splitSpriteSheet dims (imagesDir opts) (cells.map (fun c => c.id))
          opts.outputFormat opts.rows opts.columns with
      | .ok files =>
        (.ok ⟨batchIndex, batchSheetPath opts batchIndex, files.map (fun f => f.path),
          cells, true, none⟩, [])
      | .error _ => regenerate batchIndex cells opts env
    | .error _ => regenerate batchIndex cells opts env
  else regenerate batchIndex cells opts env

end Proc

/-- C7: with policy `skip` and an existing batch sheet, `processBatch` makes
no submission call (no remote events at all) and returns a successful
`BatchResult` whose cell images are re-derived from the existing sheet by the
Sheet Partitioner; if loading or re-splitting the existing sheet fails, the
batch falls through to full regeneration instead of being failed. -/
theorem C7_skip_policy (batchIndex : Nat) (cells : List Gen.CellDefinition)
    (opts : Proc.GenOptions) (env : Proc.ProcEnv)
    (hpol : opts.existing = Proc.ExistingPolicy.skip)
    (hex : env.sheetExists = true) :
    (∀ dims files, env.existingSheetDims = .ok dims →
      Sheet.splitSpriteSheet dims (Proc.imagesDir opts) (cells.map (fun c => c.id))
        opts.outputFormat opts.rows opts.columns = .ok files →
      Proc.processBatch batchIndex cells opts env =
        (.ok ⟨batchIndex, Proc.batchSheetPath opts batchIndex,
          files.map (fun f => f.path), cells, true, none⟩, []) ∧
      Proc.PEvent.submitTask ∉
        (Proc.processBatch batchIndex cells opts env).2) ∧
    (∀ dims e, env.existingSheetDims = .ok dims →
      Sheet.splitSpriteSheet dims (Proc.imagesDir opts) (cells.map (fun c => c.id))
        opts.outputFormat opts.rows opts.columns = .error e →
      Proc.processBatch batchIndex cells opts env =
        Proc.regenerate batchIndex cells opts env) ∧
    (∀ e, env.existingSheetDims = .error e →
      Proc.processBatch batchIndex cells opts env =
        Proc.regenerate batchIndex cells opts env) := by
  refine ⟨?_, ?_, ?_⟩
  · intro dims files hdims hsplit
    have heq : Proc.processBatch batchIndex cells opts env =
        (.ok ⟨batchIndex, Proc.batchSheetPath opts batchIndex,
          files.map (fun f => f.path), cells, true, none⟩, []) := by
      rw [Proc.processBatch, if_pos ⟨hpol, hex⟩]
      simp only [hdims, hsplit]
    exact ⟨heq, by rw [heq]; simp⟩
  · intro dims e hdims hsplit
    rw [Proc.processBatch, if_pos ⟨hpol, hex⟩]
    simp only [hdims, hsplit]
  · intro e hdims
    rw [Proc.processBatch, if_pos ⟨hpol, hex⟩]
    simp only [hdims]

/-- C7 witness: a concrete skip-hit (64×64 existing sheet, 1×1 grid) returns
success with the re-derived cell path and no events; and a failing decode of
the existing sheet falls through to a successful regeneration. -/
theorem C7_skip_policy_witness :
    Proc.processBatch 0 [⟨"cat", "Cat"⟩]
      ⟨1, 1, "out", Proc.ExistingPolicy.skip, "png"⟩
      ⟨true, .ok (some (64, 64)), .ok "t1", .ok ["u"], .ok (), .ok (some (64, 64))⟩ =
      (.ok ⟨0, "out/batches/batch-1.png", ["out/images/cat.png"],
        [⟨"cat", "Cat"⟩], true, none⟩, []) ∧
    Proc.processBatch 0 [⟨"cat", "Cat"⟩]
      ⟨1, 1, "out", Proc.ExistingPolicy.skip, "png"⟩
      ⟨true, .error "corrupt sheet", .ok "t1", .ok ["u"], .ok (), .ok (some (64, 64))⟩ =
      Proc.regenerate 0 [⟨"cat", "Cat"⟩]
        ⟨1, 1, "out", Proc.ExistingPolicy.skip, "png"⟩
        ⟨true, .error "corrupt sheet", .ok "t1", .ok ["u"], .ok (), .ok (some (64, 64))⟩ := by
  constructor
  · have h := C7_skip_policy 0 [⟨"cat", "Cat"⟩]
      ⟨1, 1, "out", Proc.ExistingPolicy.skip, "png"⟩
      ⟨true, .ok (some (64, 64)), .ok "t1", .ok ["u"], .ok (), .ok (some (64, 64))⟩ rfl rfl
    refine (h.1 (some (64, 64))
      [⟨"cat", "out/images/cat.png", 0, 0, 64, 64⟩] rfl ?_).1
    show Sheet.splitSpriteSheet (some (64, 64)) "out/images" ["cat"] "png" 1 1 =
      .ok [⟨"cat", "out/images/cat.png", 0, 0, 64, 64⟩]
    have hrow : Sheet.splitRowLoop ["cat"] "out/images" "png" 64 64 1 1 0 =
        [⟨"cat", "out/images/cat.png", 0, 0, 64, 64⟩] := by
      rw [Sheet.splitRowLoop, dif_pos (by norm_num),
        Sheet.splitColLoop, dif_pos (by norm_num), if_neg (by norm_num),
        Sheet.splitColLoop, dif_neg (by norm_num),
        Sheet.splitRowLoop, dif_neg (by norm_num)]
      rfl
    rw [Sheet.splitSpriteSheet, if_neg (by norm_num)]
    rw [show (64 : Nat) / 1 = 64 from rfl]
    rw [hrow]
  · have h := C7_skip_policy 0 [⟨"cat", "Cat"⟩]
      ⟨1, 1, "out", Proc.ExistingPolicy.skip, "png"⟩
      ⟨true, .error "corrupt sheet", .ok "t1", .ok ["u"], .ok (), .ok (some (64, 64))⟩ rfl rfl
    exact h.2.2 "corrupt sheet" rfl

namespace RLim

/-- Discarding timestamps older than the window:
`this.timestamps.filter(ts => now - ts < this.windowMs)`. -/
def prune (wMs now : Nat) (ts : List Nat) : List Nat :=
  ts.filter (fun t => now - t < wMs)

/-- `RateLimiter.acquire` (src/rate-limiter.ts), in discrete time: prune the
window; if `maxRequests` or more timestamps remain, wait
`windowMs - (now - oldest) + 10` and try again (the recursive
`return this.acquire()`), else record `now` and return the completion time.
The fuel bounds the retries; it is spent only on waits, and in the sequential
model two units always suffice (`acquireGo_spec`). -/
def acquireGo (maxR wMs : Nat) : Nat → List Nat → Nat → Option (Nat × List Nat)
  | 0, _, _ => none
  | fuel + 1, ts, now =>
    let ts1 := prune wMs now ts
    if maxR ≤ ts1.length then
      let oldest := ts1.headD 0
      let wait := wMs - (now - oldest) + 10
      acquireGo maxR wMs fuel ts1 (now + wait)
    else some (now, ts1 ++ [now])

def acquire (maxR wMs : Nat) (ts : List Nat) (now : Nat) : Option (Nat × List Nat) :=
  acquireGo maxR wMs (ts.length + 2) ts now

/-- A sequence of sequential `acquire()` calls: the `i`-th call becomes ready
at time `reqs[i]` and starts at the later of that and the previous call's
completion.  Returns the recorded admission (completion) times. -/
def runAcquires (maxR wMs : Nat) : List Nat → List Nat → Nat → Option (List Nat)
  | _, [], _ => some []
  | ts, r :: rest, clock =>
    match acquire maxR wMs ts (Nat.max clock r) with
    | none => none
    | some (c, ts1) => (runAcquires maxR wMs ts1 rest c).map (fun l => c :: l)

/-- `a` is within the trailing window of length `wMs` ending at time `T`. -/
def inWindow (wMs T a : Nat) : Bool := a ≤ T && T - a < wMs

def countWindow (wMs T : Nat) (admits : List Nat) : Nat :=
  admits.countP (inWindow wMs T)

theorem prune_length_le (wMs now : Nat) (ts : List Nat) :
    (prune wMs now ts).length ≤ ts.length :=
  List.length_filter_le _ _

/-- Pruning at a later time after pruning at an earlier time is pruning at
the later time. -/
theorem prune_prune (wMs now c : Nat) (ts : List Nat) (h : now ≤ c) :
    prune wMs c (prune wMs now ts) = prune wMs c ts := by
  rw [prune, prune, prune, List.filter_filter]
  apply List.filter_congr
  intro x _
  by_cases hc : c - x < wMs
  · rw [decide_eq_true hc, decide_eq_true (show now - x < wMs by omega)]
    rfl
  · rw [decide_eq_false hc]
    rfl

/-- Pruning does not change any window count taken at or after the pruning
time. -/
theorem countWindow_prune (wMs c T : Nat) (ts : List Nat) (hT : c ≤ T) :
    countWindow wMs T (prune wMs c ts) = countWindow wMs T ts := by
  rw [countWindow, countWindow, prune, List.countP_filter]
  apply List.countP_congr
  intro x _
  constructor
  · intro hx
    rw [Bool.and_eq_true] at hx
    exact hx.1
  · intro hx
    rw [Bool.and_eq_true]
    refine ⟨hx, ?_⟩
    rw [inWindow, Bool.and_eq_true, decide_eq_true_eq, decide_eq_true_eq] at hx
    exact decide_eq_true (show c - x < wMs by omega)

/-- In the sequential model, `acquire` with at least two units of fuel always
succeeds: it completes at some `c ≥ now`, records `c`, and leaves exactly the
still-windowed earlier admissions (fewer than `maxRequests` of them). -/
theorem acquireGo_spec (maxR wMs : Nat) (hmax : 1 ≤ maxR) :
    ∀ fuel ts now, 2 ≤ fuel → ts.length ≤ maxR → (∀ x ∈ ts, x ≤ now) →
      ∃ c, acquireGo maxR wMs fuel ts now = some (c, prune wMs c ts ++ [c]) ∧
        now ≤ c ∧ (prune wMs c ts).length < maxR := by
  intro fuel ts now hfuel hlen hle
  obtain ⟨k, rfl⟩ : ∃ k, fuel = k + 2 := ⟨fuel - 2, by omega⟩
  by_cases hfull : maxR ≤ (prune wMs now ts).length
  · have hlen1 : (prune wMs now ts).length ≤ ts.length := prune_length_le wMs now ts
    have hne : prune wMs now ts ≠ [] := by
      intro hcon
      rw [hcon] at hfull
      simp at hfull
      omega
    obtain ⟨o, tl, hts1⟩ := List.exists_cons_of_ne_nil hne
    have ho_mem : o ∈ prune wMs now ts := by rw [hts1]; simp
    have ho_ts : o ∈ ts := List.mem_of_mem_filter ho_mem
    have ho_now : o ≤ now := hle o ho_ts
    have ho_win : now - o < wMs := by
      have := List.of_mem_filter ho_mem
      simpa using this
    refine ⟨now + (wMs - (now - o) + 10), ?_, by omega, ?_⟩
    · show acquireGo maxR wMs (k + 1 + 1) ts now = _
      rw [acquireGo]
      simp only [if_pos hfull]
      rw [hts1]
      simp only [List.headD_cons]
      rw [← hts1]
      have hstep : acquireGo maxR wMs (k + 1) (prune wMs now ts)
          (now + (wMs - (now - o) + 10)) =
          some (now + (wMs - (now - o) + 10),
            prune wMs (now + (wMs - (now - o) + 10)) ts ++
              [now + (wMs - (now - o) + 10)]) := by
        rw [acquireGo]
        have hp2 : prune wMs (now + (wMs - (now - o) + 10)) (prune wMs now ts) =
            prune wMs (now + (wMs - (now - o) + 10)) ts :=
          prune_prune wMs now _ ts (by omega)
        have hshort : (prune wMs (now + (wMs - (now - o) + 10))
            (prune wMs now ts)).length < maxR := by
          rw [hts1, prune, List.filter_cons,
            if_neg (by simp only [decide_eq_true_eq]; omega)]
          have := List.length_filter_le
            (fun t => decide (now + (wMs - (now - o) + 10) - t < wMs)) tl
          have htl : tl.length + 1 = (prune wMs now ts).length := by rw [hts1]; rfl
          omega
        simp only [if_neg (Nat.not_le.mpr hshort)]
        rw [hp2]
      exact hstep
    · have hp2 : prune wMs (now + (wMs - (now - o) + 10)) (prune wMs now ts) =
          prune wMs (now + (wMs - (now - o) + 10)) ts :=
        prune_prune wMs now _ ts (by omega)
      rw [← hp2, hts1, prune, List.filter_cons,
        if_neg (by simp only [decide_eq_true_eq]; omega)]
      have := List.length_filter_le
        (fun t => decide (now + (wMs - (now - o) + 10) - t < wMs)) tl
      have htl : tl.length + 1 = (prune wMs now ts).length := by rw [hts1]; rfl
      omega
  · refine ⟨now, ?_, le_rfl, by omega⟩
    show acquireGo maxR wMs (k + 1 + 1) ts now = _
    rw [acquireGo]
    simp only [if_neg hfull]

end RLim

namespace RLim

/-- Invariant of the sequential execution: the recorded timestamps are a
bounded set of past admissions that account for every admission still inside
any present-or-future window, and no window ever exceeds `maxRequests`. -/
def Inv (maxR wMs : Nat) (ts : List Nat) (clock : Nat) (hist : List Nat) : Prop :=
  ts.length ≤ maxR ∧ (∀ x ∈ ts, x ≤ clock) ∧ (∀ x ∈ hist, x ≤ clock) ∧
  (∀ T, clock ≤ T → countWindow wMs T hist = countWindow wMs T ts) ∧
  (∀ T, countWindow wMs T hist ≤ maxR)

theorem runAcquires_spec (maxR wMs : Nat) (hmax : 1 ≤ maxR) :
    ∀ (reqs ts : List Nat) (clock : Nat) (hist : List Nat), Inv maxR wMs ts clock hist →
      ∃ admits, runAcquires maxR wMs ts reqs clock = some admits ∧
        ∀ T, countWindow wMs T (hist ++ admits) ≤ maxR
  | [], ts, clock, hist, hinv => ⟨[], rfl, fun T => by
      rw [List.append_nil]; exact hinv.2.2.2.2 T⟩
  | r :: rest, ts, clock, hist, hinv => by
    obtain ⟨hlen, hts, hhist, hwin, hbound⟩ := hinv
    obtain ⟨c, heq, hc, hlt⟩ := acquireGo_spec maxR wMs hmax (ts.length + 2) ts
      (Nat.max clock r) (by omega) hlen
      (fun x hx => le_trans (hts x hx) (Nat.le_max_left clock r))
    have hclock_c : clock ≤ c := le_trans (Nat.le_max_left clock r) hc
    have hcount_eq : ∀ T, c ≤ T →
        List.countP (inWindow wMs T) hist = List.countP (inWindow wMs T) (prune wMs c ts) := by
      intro T hT
      have h0 : countWindow wMs T hist = countWindow wMs T (prune wMs c ts) := by
        rw [countWindow_prune wMs c T ts hT]
        exact hwin T (by omega)
      simpa [countWindow] using h0
    have hinv2 : Inv maxR wMs (prune wMs c ts ++ [c]) c (hist ++ [c]) := by
      refine ⟨?_, ?_, ?_, ?_, ?_⟩
      · rw [List.length_append, List.length_singleton]
        omega
      · intro x hx
        rcases List.mem_append.mp hx with hx | hx
        · exact le_trans (hts x (List.mem_of_mem_filter hx)) hclock_c
        · rw [List.mem_singleton.mp hx]
      · intro x hx
        rcases List.mem_append.mp hx with hx | hx
        · exact le_trans (hhist x hx) hclock_c
        · rw [List.mem_singleton.mp hx]
      · intro T hT
        simp only [countWindow, List.countP_append]
        rw [hcount_eq T hT]
      · intro T
        rw [countWindow, List.countP_append]
        by_cases hcT : inWindow wMs T c = true
        · have hcle : c ≤ T := by
            rw [inWindow, Bool.and_eq_true, decide_eq_true_eq] at hcT
            exact hcT.1
          have h1 : List.countP (inWindow wMs T) hist =
              List.countP (inWindow wMs T) (prune wMs c ts) := hcount_eq T hcle
          have h2 : List.countP (inWindow wMs T) (prune wMs c ts) ≤
              (prune wMs c ts).length := List.countP_le_length _
          have h3 : List.countP (inWindow wMs T) [c] ≤ ([c] : List Nat).length :=
            List.countP_le_length _
          rw [List.length_singleton] at h3
          have hb := hbound T
          rw [countWindow] at hb
          omega
        · have h3 : List.countP (inWindow wMs T) [c] = 0 := by
            simp [List.countP_cons, hcT]
          have := hbound T
          rw [countWindow] at this
          omega
    obtain ⟨admits, hrun, hprop⟩ := runAcquires_spec maxR wMs hmax rest
      (prune wMs c ts ++ [c]) c (hist ++ [c]) hinv2
    refine ⟨c :: admits, ?_, ?_⟩
    · rw [runAcquires, show acquire maxR wMs ts (Nat.max clock r) =
        some (c, prune wMs c ts ++ [c]) from heq]
      simp only [hrun, Option.map_some']
    · intro T
      have := hprop T
      rwa [List.append_assoc, List.singleton_append] at this

end RLim

namespace RLim

theorem prune_replicate_same (wMs t j : Nat) (hw : 1 ≤ wMs) :
    prune wMs t (List.replicate j t) = List.replicate j t := by
  apply List.filter_eq_self.mpr
  intro a ha
  rw [List.eq_of_mem_replicate ha]
  simp only [Nat.sub_self, decide_eq_true_eq]
  omega

theorem acquire_immediate (maxR wMs t j : Nat) (hw : 1 ≤ wMs) (hj : j < maxR) :
    acquire maxR wMs (List.replicate j t) t = some (t, List.replicate (j + 1) t) := by
  rw [acquire, acquireGo]
  simp only [prune_replicate_same wMs t j hw, List.length_replicate]
  rw [if_neg (by omega), List.replicate_succ' j t]

theorem acquire_full (maxR wMs t : Nat) (hmax : 1 ≤ maxR) (hw : 1 ≤ wMs) :
    acquire maxR wMs (List.replicate maxR t) t =
      some (t + (wMs + 10), [t + (wMs + 10)]) := by
  rw [acquire, acquireGo]
  simp only [prune_replicate_same wMs t maxR hw, List.length_replicate]
  rw [if_pos le_rfl]
  obtain ⟨m, rfl⟩ : ∃ m, maxR = m + 1 := ⟨maxR - 1, by omega⟩
  rw [List.replicate_succ, List.headD_cons, Nat.sub_self, Nat.sub_zero, ← List.replicate_succ]
  rw [acquireGo]
  have hempty : prune wMs (t + (wMs + 10)) (List.replicate (m + 1) t) = [] := by
    apply List.filter_eq_nil_iff.mpr
    intro a ha
    rw [List.eq_of_mem_replicate ha]
    simp only [decide_eq_true_eq]
    omega
  rw [hempty]
  simp only [List.length_nil]
  rw [if_neg (by omega), List.nil_append]

theorem run_immediate (maxR wMs t : Nat) (hmax : 1 ≤ maxR) (hw : 1 ≤ wMs) :
    ∀ k j, j + k = maxR →
      runAcquires maxR wMs (List.replicate j t) (List.replicate (k + 1) t) t =
        some (List.replicate k t ++ [t + (wMs + 10)]) := by
  intro k
  induction k with
  | zero =>
    intro j hj
    subst hj
    rw [List.replicate_succ, List.replicate_zero]
    rw [runAcquires, show Nat.max t t = t from max_self t,
      show acquire (j + 0) wMs (List.replicate j t) t =
        some (t + (wMs + 10), [t + (wMs + 10)]) from by
          rw [Nat.add_zero]
          exact acquire_full j wMs t (by omega) hw]
    rfl
  | succ k ih =>
    intro j hj
    rw [List.replicate_succ, runAcquires, show Nat.max t t = t from max_self t,
      show acquire maxR wMs (List.replicate j t) t =
        some (t, List.replicate (j + 1) t) from
        acquire_immediate maxR wMs t j hw (by omega)]
    simp only [ih (j + 1) (by omega), Option.map_some']
    rw [← List.cons_append, ← List.replicate_succ]

end RLim

/-- C6: the Rate Limiter admission guarantee (discrete-time sequential
model).  (1) With `maxRequests + 1` back-to-back `acquire()` calls at time
`t`, the first `maxRequests` complete immediately at `t` and the next one
completes only at `t + windowMs + 10`, i.e. only after the oldest recorded
timestamp `t` has left the trailing window at `t + windowMs`.  (2) For every
request schedule, the run completes and at no time are more than
`maxRequests` admissions recorded within any trailing `windowMs` window. -/
theorem C6_rate_limiter (maxR wMs t : Nat) (hmax : 1 ≤ maxR) (hw : 1 ≤ wMs) :
    (RLim.runAcquires maxR wMs [] (List.replicate (maxR + 1) t) t =
      some (List.replicate maxR t ++ [t + (wMs + 10)])) ∧
    (t + wMs ≤ t + (wMs + 10)) ∧
    (∀ reqs : List Nat, (RLim.runAcquires maxR wMs [] reqs 0).isSome = true ∧
      ∀ admits T, RLim.runAcquires maxR wMs [] reqs 0 = some admits →
        RLim.countWindow wMs T admits ≤ maxR) := by
  have hinv0 : RLim.Inv maxR wMs [] 0 [] := by
    refine ⟨by simp, by simp, by simp, fun T _ => rfl, fun T => ?_⟩
    rw [RLim.countWindow, List.countP_nil]
    omega
  refine ⟨?_, by omega, ?_⟩
  · have h := RLim.run_immediate maxR wMs t hmax hw maxR 0 (by omega)
    rw [List.replicate_zero] at h
    exact h
  · intro reqs
    obtain ⟨admits, hrun, hprop⟩ :=
      RLim.runAcquires_spec maxR wMs hmax reqs [] 0 [] hinv0
    constructor
    · rw [hrun]; rfl
    · intro admits2 T hrun2
      rw [hrun] at hrun2
      cases hrun2
      have := hprop T
      rwa [List.nil_append] at this

/-- C6 witness: `maxRequests = 2`, `windowMs = 10`: three immediate calls at
`t = 5` admit at `5, 5, 25` (the third only after `5 + 10`), and for the
schedule `[0,0,0]` no window of length 10 ever holds more than 2 admissions
(e.g. at `T = 20`). -/
theorem C6_rate_limiter_witness :
    RLim.runAcquires 2 10 [] (List.replicate 3 5) 5 = some [5, 5, 25] ∧
    RLim.countWindow 10 20 [0, 0, 20] ≤ 2 := by
  have h := C6_rate_limiter 2 10 5 (by decide) (by decide)
  constructor
  · rw [h.1]
    decide
  · exact (h.2.2 [0, 0, 0]).2 [0, 0, 20] 20 (by decide)
